import Mathlib

/-
Verification of the termgraph layout pipeline (a Rust library rendering
directed graphs as character grids on the terminal).

The Rust sources are shallowly embedded below.  Modelling conventions:

* Node identifiers (the generic `ID` of the crate) are instantiated at
  `Nat`; node payload values at `String`.  Machine `usize` arithmetic is
  modelled by `Nat`; the only places where the `usize` range matters
  (the `initial_level..usize::MAX` search loop of
  `GraphLevels::distribute_nodes`) use the explicit bound `usizeMax`.
  `saturating_sub` is `Nat` truncated subtraction.
* `std::collections::HashMap` / `HashSet` are modelled as association
  lists / duplicate-free lists whose list order stands for the map's
  iteration order.  In Rust that order is unspecified and randomized per
  map instance (`RandomState`); the embedding makes it an explicit input:
  the order of the lists fed to a function is the iteration-order oracle
  of the corresponding run.  `HashMap::insert` on a present key replaces
  the value in place; a new key is appended.
* Panicking operations (`expect`, `unwrap`, `todo!`, `unreachable!`,
  indexing) are modelled with `Option`, `none` meaning the Rust program
  panics (or, for the fuel-limited loops, fails to terminate within the
  given fuel).
-/

namespace Termgraph

/-- Node identifier type (the crate's generic `ID`, instantiated). -/
abbrev ID := Nat

section AssocPrimitives

variable {α : Type} {β : Type} [DecidableEq α]

/-- Membership test on a list modelling a `HashSet` / key scan. -/
def containsD (l : List α) (x : α) : Bool :=
  l.any (fun y => x = y)

/-- `HashMap` lookup: the value stored at key `k`. -/
def alookup (m : List (α × β)) (k : α) : Option β :=
  (m.find? (fun p => p.1 = k)).map Prod.snd

/-- `HashMap::insert`: replace in place if the key is present, else append
(the appended position models the key becoming part of the iteration
order). -/
def aupsert (m : List (α × β)) (k : α) (v : β) : List (α × β) :=
  match m with
  | [] => [(k, v)]
  | (k', v') :: rest =>
    if k' = k then (k, v) :: rest else (k', v') :: aupsert rest k v

/-- `HashMap::get_mut(k).expect(..)`: update the value at `k`, failing
(panic) when the key is absent. -/
def aadjust (m : List (α × β)) (k : α) (f : β → β) : Option (List (α × β)) :=
  match m with
  | [] => none
  | (k', v') :: rest =>
    if k' = k then some ((k', f v') :: rest)
    else (aadjust rest k f).map (fun r => (k', v') :: r)

/-- `HashSet::insert`: append if absent. -/
def sinsert (s : List α) (x : α) : List α :=
  if containsD s x then s else s ++ [x]

/-- `HashSet::remove`: drop the element, keeping the order of the rest. -/
def sremove (s : List α) (x : α) : List α :=
  s.filter (fun y => ¬ x = y)

/-- Collect an iterator into a `HashSet`: fold `insert` over the list,
keeping the first occurrence of each element. -/
def sfromList (l : List α) : List α :=
  l.foldl sinsert []

end AssocPrimitives

/-! ### `graph.rs`: the caller-facing `DirectedGraph` -/

/-- `DirectedGraph` (src/graph.rs): adjacency-list graph, node id to value
and per-source target sets. -/
structure DirectedGraph where
  nodes : List (ID × String)
  edges : List (ID × List ID)
deriving DecidableEq, Repr

/-- `DirectedGraph::new`. -/
def DirectedGraph.new : DirectedGraph := ⟨[], []⟩

/-- `DirectedGraph::is_empty`. -/
def DirectedGraph.isEmpty (g : DirectedGraph) : Bool := g.nodes.isEmpty

/-- `DirectedGraph::add_nodes`: upsert each `(id, value)` pair. -/
def DirectedGraph.addNodes (g : DirectedGraph) (l : List (ID × String)) :
    DirectedGraph :=
  { g with nodes := l.foldl (fun m p => aupsert m p.1 p.2) g.nodes }

/-- `DirectedGraph::add_edges`: for each `(from, to)` insert `to` into the
target set of `from` (`entry(from).or_insert_with(HashSet::new)`). -/
def DirectedGraph.addEdges (g : DirectedGraph) (l : List (ID × ID)) :
    DirectedGraph :=
  { g with
    edges := l.foldl (fun m p =>
      match alookup m p.1 with
      | some s => aupsert m p.1 (sinsert s p.2)
      | none => m ++ [(p.1, sinsert [] p.2)]) g.edges }

/-! ### `graph/tarjan.rs`: strongly connected components -/

/-- Per-node bookkeeping of Tarjan's algorithm (`NodeData` in
src/graph/tarjan.rs). -/
structure NodeData where
  index : Option Nat
  lowlink : Option Nat
  onstack : Bool
deriving DecidableEq, Repr

/-- The mutable state threaded through `strongconnect`: the `nodes`
bookkeeping map, the Tarjan stack (head = top), the `AtomicUsize` index
counter and the accumulated component list. -/
structure TarjanState where
  data : List (ID × NodeData)
  stack : List ID
  nextIndex : Nat
  result : List (List ID)
deriving DecidableEq, Repr

/-- The stack-popping loop at the end of `strongconnect` that collects one
strongly connected component once `lowlink == index` (src/graph/tarjan.rs
lines 114-129).  Fails (panic on `stack.pop().unwrap()`) if the root is
not on the stack. -/
def tarjanPop (node : ID) :
    List (ID × NodeData) → List ID → List ID →
    Option (List (ID × NodeData) × List ID × List ID)
  | _, [], _ => none
  | data, w :: rest, scc =>
    match aadjust data w (fun d => { d with onstack := false }) with
    | none => none
    | some data' =>
      let scc' := scc ++ [w]
      if w = node then some (data', rest, scc')
      else tarjanPop node data' rest scc'

/-- `strongconnect` (src/graph/tarjan.rs lines 66-131), recursion made
explicit with fuel (the Rust recursion depth is bounded by the number of
nodes, each call claiming a fresh DFS index). -/
def strongconnect (edges : List (ID × List ID)) :
    Nat → ID → TarjanState → Option TarjanState
  | 0, _, _ => none
  | fuel + 1, node, st =>
    let idx := st.nextIndex
    match aadjust st.data node
        (fun _ => { index := some idx, lowlink := some idx, onstack := true }) with
    | none => none
    | some data0 =>
      let st0 : TarjanState :=
        { data := data0, stack := node :: st.stack, nextIndex := idx + 1,
          result := st.result }
      let succs := (alookup edges node).getD []
      let afterSuccs : Option TarjanState := succs.foldlM (fun st1 succ =>
        match alookup st1.data succ with
        | none => some st1
        | some w =>
          if w.index.isNone then
            match strongconnect edges fuel succ st1 with
            | none => none
            | some st2 =>
              match alookup st2.data succ with
              | none => none
              | some w' =>
                match w'.lowlink with
                | none => none
                | some wl =>
                  match alookup st2.data node with
                  | none => none
                  | some v =>
                    match v.lowlink with
                    | none => none
                    | some vl =>
                      (aadjust st2.data node
                          (fun d => { d with lowlink := some (min vl wl) })).map
                        (fun data' => { st2 with data := data' })
          else if w.onstack then
            match w.index with
            | none => none
            | some wi =>
              match alookup st1.data node with
              | none => none
              | some v =>
                match v.lowlink with
                | none => none
                | some vl =>
                  (aadjust st1.data node
                      (fun d => { d with lowlink := some (min vl wi) })).map
                    (fun data' => { st1 with data := data' })
          else some st1) st0
      match afterSuccs with
      | none => none
      | some st3 =>
        match alookup st3.data node with
        | none => none
        | some v =>
          if v.lowlink = v.index then
            match tarjanPop node st3.data st3.stack [] with
            | none => none
            | some (data', stack', scc) =>
              some { st3 with data := data', stack := stack',
                              result := st3.result ++ [scc] }
          else some st3

/-- `sccs` (src/graph/tarjan.rs lines 16-64): run `strongconnect` from
every still-unindexed node, in node-map iteration order. -/
def sccsFn (nodes : List (ID × String)) (edges : List (ID × List ID)) :
    Option (List (List ID)) :=
  let init : TarjanState :=
    { data := nodes.map (fun p => (p.1, ⟨none, none, false⟩)),
      stack := [], nextIndex := 0, result := [] }
  let run : Option TarjanState := nodes.foldlM (fun st p =>
    match alookup st.data p.1 with
    | none => none
    | some d =>
      if d.index.isNone then strongconnect edges (nodes.length + 1) p.1 st
      else some st) init
  run.map TarjanState.result

/-! ### `acyclic.rs` data and `graph.rs::to_acyclic` -/

/-- `AcyclicDirectedGraph` (src/acyclic.rs): borrowed node map plus an
adjacency with cycles removed. -/
structure AcyclicDirectedGraph where
  nodes : List (ID × String)
  edges : List (ID × List ID)
deriving DecidableEq, Repr

/-- `AcyclicDirectedGraph::successors`. -/
def AcyclicDirectedGraph.successors (g : AcyclicDirectedGraph) (n : ID) :
    Option (List ID) :=
  alookup g.edges n

/-- Whether every strongly connected component in the list is a
singleton (`sccs.iter().all(|s| s.len() == 1)`). -/
def allSingleton (l : List (List ID)) : Bool :=
  l.all (fun s => s.length = 1)

/-- The cycle-breaking loop of `DirectedGraph::to_acyclic`
(src/graph.rs lines 94-130): while some component has at least two
vertices, take the last entry of the first such component, find a member
of the rest of that component among its targets, record that edge and
flip it. -/
def breakCycles :
    Nat → List (ID × String) → List (ID × List ID) → List (ID × ID) →
    Option (AcyclicDirectedGraph × List (ID × ID))
  | 0, _, _, _ => none
  | fuel + 1, anodes, aedges, reversedEdges =>
    match sccsFn anodes aedges with
    | none => none
    | some currentSccs =>
      if allSingleton currentSccs then
        some (⟨anodes, aedges⟩, reversedEdges)
      else
        match currentSccs.find? (fun s => 1 < s.length) with
        | none => none
        | some firstScc =>
          match firstScc.getLast? with
          | none => none
          | some lastPart =>
            let rest := firstScc.dropLast
            match alookup aedges lastPart with
            | none => none
            | some lastTargets =>
              match rest.find? (fun t => containsD lastTargets t) with
              | none => none
              | some firstPart =>
                let reversedEdges' := reversedEdges ++ [(lastPart, firstPart)]
                match aadjust aedges lastPart (fun s => sremove s firstPart) with
                | none => none
                | some aedges1 =>
                  match aadjust aedges1 firstPart (fun s => sinsert s lastPart) with
                  | none => none
                  | some aedges2 =>
                    breakCycles fuel anodes aedges2 reversedEdges'

/-- `DirectedGraph::to_acyclic` (src/graph.rs lines 75-133): compute the
strongly connected components; if all are singletons return the graph
unchanged with no reversed edges, otherwise break cycles one flipped edge
at a time.  `fuel` bounds the breaking loop (whose termination the Rust
code leaves implicit). -/
def DirectedGraph.toAcyclic (g : DirectedGraph) (fuel : Nat) :
    Option (AcyclicDirectedGraph × List (ID × ID)) :=
  let anodes := g.nodes
  let aedges := g.edges
  match sccsFn anodes aedges with
  | none => none
  | some sccs0 =>
    if allSingleton sccs0 then some (⟨anodes, aedges⟩, [])
    else breakCycles fuel anodes aedges []

/-- `HashMap::contains_key`. -/
def acontains {α β : Type} [DecidableEq α] (m : List (α × β)) (k : α) : Bool :=
  (alookup m k).isSome

/-! ### `acyclic.rs::transitive_reduction` -/

/-- The body of the `while let Some(id) = stack.pop()` worklist computing
every node's reachable set (src/acyclic.rs lines 24-74).  The list head is
the top of the stack; `reachable` is the memo map, entries appended in
insertion order.  `fuel` bounds the number of loop iterations: the Rust
loop has no bound and `none` for every fuel means it never terminates. -/
def reachAux (edges : List (ID × List ID)) :
    Nat → List ID → List (ID × List ID) → Option (List (ID × List ID))
  | 0, _, _ => none
  | _ + 1, [], reachable => some reachable
  | fuel + 1, id :: stackRest, reachable =>
    if acontains reachable id then reachAux edges fuel stackRest reachable
    else
      match alookup edges id with
      | none => reachAux edges fuel stackRest (reachable ++ [(id, [])])
      | some succs =>
        if succs.isEmpty then reachAux edges fuel stackRest (reachable ++ [(id, [])])
        else if succs.all (fun s => acontains reachable s) then
          let others :=
            sfromList (succs.flatMap (fun s => (alookup reachable s).getD []) ++ succs)
          reachAux edges fuel stackRest (reachable ++ [(id, others)])
        else reachAux edges fuel (succs.reverse ++ id :: stackRest) reachable

/-- The outer `for id in self.nodes.keys()` driving the reachability
worklist from each still-unmemoized node (src/acyclic.rs lines 27-71). -/
def computeReachable (nodes : List (ID × String)) (edges : List (ID × List ID))
    (fuel : Nat) : Option (List (ID × List ID)) :=
  nodes.foldlM (fun reachable p =>
    if acontains reachable p.1 then some reachable
    else reachAux edges fuel [p.1] reachable) []

/-- `MinimalAcyclicDirectedGraph` (src/acyclic.rs): the transitively
reduced acyclic graph. -/
structure MinimalAcyclicDirectedGraph where
  inner : AcyclicDirectedGraph
deriving DecidableEq, Repr

/-- `AcyclicDirectedGraph::transitive_reduction` (src/acyclic.rs lines
23-124): compute reachable sets, then for every node drop the successors
already reachable through some other successor. -/
def AcyclicDirectedGraph.transitiveReduction (g : AcyclicDirectedGraph)
    (fuel : Nat) : Option MinimalAcyclicDirectedGraph :=
  match computeReachable g.nodes g.edges fuel with
  | none => none
  | some reachable =>
    let removeEdges : Option (List (ID × List ID)) :=
      g.nodes.foldlM (fun acc p =>
        let node := p.1
        let eds := (alookup g.edges node).getD []
        match eds.foldlM
            (fun acc2 sid => (alookup reachable sid).map (fun r => acc2 ++ r)) [] with
        | none => none
        | some succReachsRaw =>
          let succReachs := sfromList succReachsRaw
          let uniqueEdges := sfromList (eds.filter (fun v => ¬ containsD succReachs v))
          let remove := sfromList (eds.filter (fun v => ¬ containsD uniqueEdges v))
          some (acc ++ [(node, remove)])) []
    match removeEdges with
    | none => none
    | some removeEdges =>
      let nEdges : Option (List (ID × List ID)) :=
        g.edges.foldlM (fun acc p =>
          match alookup removeEdges p.1 with
          | none => none
          | some filt =>
            some (acc ++ [(p.1, p.2.filter (fun t => ¬ containsD filt t))])) []
      match nEdges with
      | none => none
      | some nEdges => some ⟨⟨g.nodes, nEdges⟩⟩

/-- `MinimalAcyclicDirectedGraph::outgoing`. -/
def MinimalAcyclicDirectedGraph.outgoing (m : MinimalAcyclicDirectedGraph)
    (n : ID) : Option (List ID) :=
  alookup m.inner.edges n

/-! ### `acyclic.rs::incoming_mapping` and `topological_sort` -/

/-- `MinimalAcyclicDirectedGraph::incoming_mapping` (src/acyclic.rs lines
173-188): map every vertex to the set of vertices with an edge into it. -/
def MinimalAcyclicDirectedGraph.incomingMapping
    (m : MinimalAcyclicDirectedGraph) : List (ID × List ID) :=
  let init := m.inner.nodes.map (fun p => (p.1, ([] : List ID)))
  m.inner.edges.foldl (fun acc p =>
    p.2.foldl (fun acc t =>
      match alookup acc t with
      | some s => aupsert acc t (sinsert s p.1)
      | none => acc ++ [(t, sinsert [] p.1)]) acc) init

/-- Stable insertion of `x` into an already sorted list: `x` goes in
front of the first element it compares less-or-equal to, hence after all
earlier-inserted equivalent elements. -/
def stableInsert {α : Type} (le : α → α → Bool) (x : α) : List α → List α
  | [] => [x]
  | y :: ys => if le x y then x :: y :: ys else y :: stableInsert le x ys

/-- Stable sort (insertion sort).  `Vec::sort_by` is a stable sort; for
the total preorders used by `topological_sort` the stable-sorted
permutation is unique, so this matches the Rust library sort. -/
def stableSortBy {α : Type} (le : α → α → Bool) : List α → List α
  | [] => []
  | x :: xs => stableInsert le x (stableSortBy le xs)

/-- Index of the first element of `ordering` contained in `inc`
(`ordering.iter().enumerate().find(..).map(|(i, _)| i)`). -/
def firstIndexWith (ordering : List ID) (inc : List ID) : Option Nat :=
  (ordering.enum.find? (fun p => containsD inc p.2)).map Prod.fst

/-- The `sort_by` comparator of `topological_sort` (src/acyclic.rs lines
229-251): order candidates by the position of their earliest already
ordered predecessor. -/
def topoCmp (incoming : List (ID × List ID)) (ordering : List ID)
    (a b : ID) : Ordering :=
  match alookup incoming a with
  | none => Ordering.lt
  | some aInc =>
    match alookup incoming b with
    | none => Ordering.gt
    | some bInc =>
      compare (firstIndexWith ordering aInc) (firstIndexWith ordering bInc)

/-- The `while !nodes.is_empty()` loop of `topological_sort`
(src/acyclic.rs lines 205-262).  One node is removed per iteration, hence
fuel `nodes.length + 1` always suffices; an empty candidate set (a cycle)
models the Rust `potential.remove(0)` panic as `none`. -/
def topoLoop (incoming : List (ID × List ID)) :
    Nat → List ID → List ID → Option (List ID)
  | 0, _, _ => none
  | fuel + 1, nodes, ordering =>
    if nodes.isEmpty then some ordering
    else
      let potential := nodes.enum.filter (fun p =>
        match alookup incoming p.2 with
        | some inEdges => inEdges.all (fun i => containsD ordering i)
        | none => true)
      if potential.length = 1 then
        match potential.getLast? with
        | none => none
        | some (index, entry) =>
          topoLoop incoming fuel (nodes.eraseIdx index) (ordering ++ [entry])
      else
        let sorted := stableSortBy
          (fun (x y : Nat × ID) => topoCmp incoming ordering x.2 y.2 ≠ Ordering.gt)
          potential
        match sorted.head? with
        | none => none
        | some (_, entry) =>
          match (nodes.enum.find? (fun p => p.2 = entry)).map Prod.fst with
          | none => none
          | some index =>
            topoLoop incoming fuel (nodes.eraseIdx index) (ordering ++ [entry])

/-- `MinimalAcyclicDirectedGraph::topological_sort` (src/acyclic.rs lines
195-265). -/
def MinimalAcyclicDirectedGraph.topologicalSort
    (m : MinimalAcyclicDirectedGraph) : Option (List ID) :=
  topoLoop m.incomingMapping (m.inner.nodes.length + 1)
    (m.inner.nodes.map Prod.fst) []

/-! ### `config.rs` -/

/-- `Color` (src/config.rs). -/
inductive Color where
  | black | white | red | green | yellow | blue | magenta | cyan
  | custom (c : Nat)
deriving DecidableEq, Repr

/-- `usize::from(color)` (src/config.rs lines 20-34). -/
def Color.code : Color → Nat
  | Color.black => 30
  | Color.white => 37
  | Color.red => 31
  | Color.green => 32
  | Color.yellow => 33
  | Color.blue => 34
  | Color.magenta => 35
  | Color.cyan => 36
  | Color.custom c => c

/-- `LineGlyphs` (src/config.rs). -/
structure LineGlyphs where
  vertical : Char
  horizontal : Char
  crossing : Char
  arrowDown : Char
deriving DecidableEq, Repr

/-- `LineGlyphBuilder::ascii().finish()`. -/
def LineGlyphs.ascii : LineGlyphs := ⟨'|', '-', '+', 'V'⟩

/-- The value of `usize::MAX` on a 64-bit target; used for the default
glyph-width budget and the `initial_level..usize::MAX` placement loop. -/
def usizeMax : Nat := 2 ^ 64 - 1

/-- `Config` (src/config.rs).  The formatter trait object is not a field
here: the embedding fixes the `IDFormatter` and passes the resulting name
map explicitly, exactly as the level and grid code receives it. -/
structure Config where
  colorPalette : Option (List Color)
  maxPerLayer : Nat
  maxGlyphsPerLayer : Nat
  verticalEdgeSpacing : Nat
  lineGlyphs : LineGlyphs

/-- `Config::new`: colors disabled, unlimited glyph width, spacing 1,
ASCII glyphs. -/
def Config.new (maxPerLayer : Nat) : Config :=
  ⟨none, maxPerLayer, usizeMax, 1, LineGlyphs.ascii⟩

/-- `Config::glyph_width`. -/
def Config.glyphWidth (c : Config) : Nat := c.maxGlyphsPerLayer

/-- `Config::max_glyphs_per_layer` builder. -/
def Config.withMaxGlyphsPerLayer (c : Config) (m : Nat) : Config :=
  { c with maxGlyphsPerLayer := m }

/-- `Config::custom_colors` builder. -/
def Config.customColors (c : Config) (colors : List Color) : Config :=
  { c with colorPalette := some colors }

/-- `IDFormatter::format_node` (src/formatter.rs lines 29-31). -/
def formatNode (id : ID) : String :=
  "(" ++ Nat.repr id ++ ")"

/-! ### `levels.rs`: level assignment -/

/-- The two budget checks guarding `level.nodes.push(v)` in
`GraphLevels::distribute_nodes` (src/levels.rs lines 85-101): the level is
rejected when it already holds `max_per_layer` nodes, or when its
cumulative glyph width (label length + 2 per node) has reached
`glyph_width().saturating_sub(label length of v + 3)`. -/
def levelFits (cfg : Config) (names : List (ID × String))
    (level : List ID) (v : ID) : Bool :=
  if cfg.maxPerLayer ≤ level.length then false
  else
    let currentGlyphWidth :=
      (level.map (fun n => ((alookup names n).map String.length).getD 0 + 2)).sum
    let currentNodeWidth := ((alookup names v).map String.length).getD 0
    let upperBound := cfg.glyphWidth - (currentNodeWidth + 3)
    decide (currentGlyphWidth < upperBound)

/-- The `for v_level in initial_level..usize::MAX` placement search of
`distribute_nodes` (src/levels.rs lines 70-107): extend the level vector
up to the candidate index, then either place the node there or advance.
The fuel is the number of remaining candidate levels in the `usize`
range; `none` models the Rust loop running the entire range without a
placement (the node is silently dropped after the vector has been grown
towards `usize::MAX` entries, an out-of-memory abort in practice). -/
def placeLoop (cfg : Config) (names : List (ID × String)) (v : ID) :
    Nat → Nat → List (List ID) → Option (Nat × List (List ID))
  | 0, _, _ => none
  | fuel + 1, vLevel, levels =>
    let levels1 := levels ++ List.replicate ((vLevel + 1) - levels.length) []
    let lvl := levels1.getD vLevel []
    if levelFits cfg names lvl v then
      some (vLevel, levels1.set vLevel (lvl ++ [v]))
    else placeLoop cfg names v fuel (vLevel + 1) levels1

/-- The candidate level of `v`: one more than the maximum level already
assigned to its successors in the reduced graph, `0` if it has none
(src/levels.rs lines 61-68; unassigned successors default to level 0). -/
def initialLevel (graph : MinimalAcyclicDirectedGraph)
    (vertexLevels : List (ID × Nat)) (v : ID) : Nat :=
  match graph.outgoing v with
  | some out =>
    ((((out.map (fun id => (alookup vertexLevels id).getD 0)).max?).map (· + 1)).getD 0)
  | none => 0

/-- `GraphLevels::distribute_nodes` (src/levels.rs lines 43-112): process
the ordering sink-first, place every node at the first level at or above
its candidate level passing both budget checks, then reverse the level
list into top-to-bottom order. -/
def distributeNodes (ordering : List ID) (graph : MinimalAcyclicDirectedGraph)
    (cfg : Config) (names : List (ID × String)) : Option (List (List ID)) :=
  (ordering.reverse.foldlM (fun (st : List (List ID) × List (ID × Nat)) v =>
    let levels := st.1
    let vertexLevels := st.2
    let init := initialLevel graph vertexLevels v
    match placeLoop cfg names v (usizeMax - init) init levels with
    | none => none
    | some (vLevel, levels') =>
      some (levels', aupsert vertexLevels v vLevel))
    (([] : List (List ID)), ([] : List (ID × Nat)))).map
    (fun (st : List (List ID) × List (ID × Nat)) => st.1.reverse)

/-- `GraphLevels::construct` (src/levels.rs lines 26-41): transitive
reduction, topological sort, then node distribution. -/
def GraphLevels.construct (agraph : AcyclicDirectedGraph) (cfg : Config)
    (names : List (ID × String)) (fuel : Nat) : Option (List (List ID)) :=
  match agraph.transitiveReduction fuel with
  | none => none
  | some reduced =>
    match reduced.topologicalSort with
    | none => none
    | some ordering => distributeNodes ordering reduced cfg names

/-! ### `graph/feedback_arc_set.rs` (present in the crate but never called
from `to_acyclic`) -/

/-- The in-degree count map built at the top of `find_sink`
(src/graph/feedback_arc_set.rs lines 14-23): zero-initialised over the
remaining nodes, then incremented per edge target (targets outside the
node set are appended). -/
def nodeTargetedCount (nodes : List ID) (edges : List (ID × List ID)) :
    List (ID × Nat) :=
  edges.foldl (fun acc p =>
    p.2.foldl (fun acc t =>
      match alookup acc t with
      | some c => aupsert acc t (c + 1)
      | none => acc ++ [(t, 1)]) acc)
    (nodes.map (fun id => (id, 0)))

/-- One edge/node removal shared by the sequencing loops: drop the vertex
from the node set, drop its adjacency entry, and retain only targets
different from it. -/
def removeVertex (nodes : List ID) (edges : List (ID × List ID)) (v : ID) :
    List ID × List (ID × List ID) :=
  (sremove nodes v,
   (edges.filter (fun p => ¬ p.1 = v)).map (fun p => (p.1, sremove p.2 v)))

/-- `find_sink` (src/graph/feedback_arc_set.rs lines 6-41): repeatedly
move a remaining vertex of in-degree 0 to the front of `s2`. -/
def findSink :
    Nat → List ID → List (ID × List ID) → List ID →
    Option (List ID × List (ID × List ID) × List ID)
  | 0, _, _, _ => none
  | fuel + 1, nodes, edges, s2 =>
    match (nodeTargetedCount nodes edges).find? (fun p => p.2 = 0) with
    | none => some (nodes, edges, s2)
    | some (sink, _) =>
      let (nodes', edges') := removeVertex nodes edges sink
      findSink fuel nodes' edges' (sink :: s2)

/-- `find_source` (src/graph/feedback_arc_set.rs lines 43-71): repeatedly
push a remaining vertex of out-degree 0 onto the back of `s1`. -/
def findSource :
    Nat → List ID → List (ID × List ID) → List ID →
    Option (List ID × List (ID × List ID) × List ID)
  | 0, _, _, _ => none
  | fuel + 1, nodes, edges, s1 =>
    match nodes.find? (fun id => ((alookup edges id).map List.length).getD 0 = 0) with
    | none => some (nodes, edges, s1)
    | some src =>
      let (nodes', edges') := removeVertex nodes edges src
      findSource fuel nodes' edges' (s1 ++ [src])

/-- The in-degree map of the max-degree selection step
(src/graph/feedback_arc_set.rs lines 92-100; built without
pre-initialised node entries). -/
def nodeInputs (edges : List (ID × List ID)) : List (ID × Nat) :=
  edges.foldl (fun acc p =>
    p.2.foldl (fun acc t =>
      match alookup acc t with
      | some c => aupsert acc t (c + 1)
      | none => acc ++ [(t, 1)]) acc) []

/-- `Iterator::max_by_key` semantics: the last element attaining the
maximal key. -/
def maxByKeyLast (l : List (ID × Int)) : Option ID :=
  (l.foldl (fun acc p =>
    match acc with
    | none => some p
    | some q => if q.2 ≤ p.2 then some p else some q) none).map Prod.fst

/-- `find_vertex_sequence` (src/graph/feedback_arc_set.rs lines 73-131):
strip in-degree-0 vertices onto the front of `s2` and out-degree-0
vertices onto the back of `s1`; while vertices remain, move the vertex
maximising out-degree minus in-degree onto the back of `s1`; conclude
with `s1 ++ s2`. -/
def findVertexSequence :
    Nat → List ID → List (ID × List ID) → List ID → List ID →
    Option (List ID)
  | 0, _, _, _, _ => none
  | fuel + 1, nodes, edges, s1, s2 =>
    if nodes.isEmpty then some (s1 ++ s2)
    else
      match findSink (nodes.length + 1) nodes edges s2 with
      | none => none
      | some (nodes1, edges1, s2') =>
        match findSource (nodes1.length + 1) nodes1 edges1 s1 with
        | none => none
        | some (nodes2, edges2, s1') =>
          if nodes2.isEmpty then
            findVertexSequence fuel nodes2 edges2 s1' s2'
          else
            let inputs := nodeInputs edges2
            let keyed := nodes2.map (fun id =>
              (id, (((alookup edges2 id).map List.length).getD 0 : Int) -
                   ((alookup inputs id).getD 0 : Nat)))
            match maxByKeyLast keyed with
            | none => none
            | some u =>
              let (nodes3, edges3) := removeVertex nodes2 edges2 u
              findVertexSequence fuel nodes3 edges3 (s1' ++ [u]) s2'

/-- `calulate` (src/graph/feedback_arc_set.rs lines 134-168, source
spelling kept): compute the vertex sequence on a scratch copy of the
adjacency, then collect every original edge whose source position in the
sequence is at most its target position. -/
def calulate (nodes : List ID) (edges : List (ID × List ID)) :
    Option (List (ID × ID)) :=
  match findVertexSequence (nodes.length + 1) nodes edges [] [] with
  | none => none
  | some sequence =>
    sequence.enum.foldlM (fun acc p =>
      let srcIndex := p.1
      let src := p.2
      let targets := (alookup edges src).getD []
      targets.foldlM (fun acc tid =>
        match sequence.enum.find? (fun q => q.2 = tid) with
        | none => none
        | some (targetIndex, target) =>
          if srcIndex ≤ targetIndex then some (acc ++ [(src, target)])
          else some acc) acc) []

/-! ### `grid.rs` data types -/

/-- `InternalNode` (src/grid.rs lines 15-29): one slot in a level. -/
inductive InternalNode where
  | user (id : ID)
  | dummy (dId : Nat) (src : ID) (target : ID)
  | reverseDummy (dId : Nat) (src : ID) (target : ID)
deriving DecidableEq, Repr

/-- `LevelEntry` (src/grid.rs lines 31-53). -/
inductive LevelEntry where
  | user (id : ID)
  | dummy (src : ID) (target : ID)
deriving DecidableEq, Repr

/-- `EntryNode` (src/grid/entry.rs lines 7-11). -/
inductive EntryNode where
  | user (id : ID)
  | singleSrc (id : ID)
  | multiSrc
deriving DecidableEq, Repr

/-- `From<LevelEntry> for EntryNode` (src/grid/entry.rs lines 13-20). -/
def LevelEntry.toEntryNode : LevelEntry → EntryNode
  | LevelEntry.user id => EntryNode.user id
  | LevelEntry.dummy src _ => EntryNode.singleSrc src

/-- `Entry` (src/grid/entry.rs lines 22-31; the source spells the vertical
variant `Veritcal`). -/
inductive Entry where
  | empty
  | horizontal (src : ID)
  | vertical (src : Option ID)
  | cross (src : Option ID)
  | arrowDown (src : Option ID)
  | node (n : EntryNode) (part : Nat)
  | openParen
  | closeParen
deriving DecidableEq, Repr

/-- The glyph-merge operator, `impl Add<Entry> for &&mut Entry`
(src/grid/entry.rs lines 48-108), arms in source order; the final
`unreachable!` arm is `none`. -/
def mergeEntry (old new : Entry) : Option Entry :=
  match old, new with
  | Entry.empty, other => some other
  | Entry.horizontal og, Entry.horizontal n =>
    if og = n then some (Entry.horizontal n) else none
  | Entry.horizontal n, Entry.empty => some (Entry.horizontal n)
  | Entry.horizontal hsrc, Entry.vertical (some vsrc) =>
    if hsrc = vsrc then some (Entry.cross (some vsrc)) else some (Entry.cross none)
  | Entry.horizontal _, Entry.vertical _ => some (Entry.cross none)
  | Entry.vertical og, Entry.vertical n =>
    if og = n then some (Entry.vertical n) else some (Entry.vertical none)
  | Entry.vertical n, Entry.empty => some (Entry.vertical n)
  | Entry.vertical (some vsrc), Entry.horizontal hsrc =>
    if vsrc = hsrc then some (Entry.cross (some hsrc)) else some (Entry.cross none)
  | Entry.vertical _, Entry.horizontal _ => some (Entry.cross none)
  | Entry.arrowDown og, Entry.arrowDown n =>
    if og = n then some (Entry.arrowDown n) else some (Entry.arrowDown none)
  | Entry.vertical og, Entry.arrowDown n =>
    if og = n then some (Entry.arrowDown n) else some (Entry.arrowDown none)
  | Entry.cross n, Entry.empty => some (Entry.cross n)
  | Entry.cross none, _ => some (Entry.cross none)
  | Entry.cross (some csrc), Entry.horizontal hsrc =>
    if csrc = hsrc then some (Entry.cross (some hsrc)) else some (Entry.cross none)
  | Entry.cross (some csrc), Entry.vertical (some vsrc) =>
    if csrc = vsrc then some (Entry.cross (some vsrc)) else some (Entry.cross none)
  | Entry.cross (some _), Entry.vertical _ => some (Entry.cross none)
  | Entry.node (EntryNode.singleSrc fid) _, Entry.node (EntryNode.singleSrc sid) _ =>
    if sid = fid then some (Entry.node (EntryNode.singleSrc sid) 0)
    else some (Entry.node EntryNode.multiSrc 0)
  | Entry.node EntryNode.multiSrc _, Entry.node (EntryNode.singleSrc _) _ =>
    some (Entry.node EntryNode.multiSrc 0)
  | _, _ => none

/-- `Horizontal` (src/grid.rs lines 64-96): a connector between two
adjacent rows; coordinates are the `GridCoordinate` column values. -/
inductive Horizontal where
  | topBottom (srcX : Nat) (src : ID) (targets : List (Nat × Bool))
      (xBounds : Nat × Nat)
  | bottomTop (srcX : Nat) (src : ID) (target : Nat) (xBounds : Nat × Nat)
  | topTop (srcX : Nat) (src : ID) (target : Nat) (xBounds : Nat × Nat)
  | bottomBottom (srcX : Nat) (src : ID) (target : Nat) (xBounds : Nat × Nat)
deriving DecidableEq, Repr

/-- `Horizontal::x_bounds`. -/
def Horizontal.xBounds : Horizontal → Nat × Nat
  | Horizontal.topBottom _ _ _ b => b
  | Horizontal.bottomTop _ _ _ b => b
  | Horizontal.topTop _ _ _ b => b
  | Horizontal.bottomBottom _ _ _ b => b

/-! ### `grid.rs::generate_levels` -/

/-- Length of a node's displayed name (`node_names.get(..).map(|n|
n.len()).unwrap_or(0)`). -/
def nameLen (names : List (ID × String)) (id : ID) : Nat :=
  ((alookup names id).map String.length).getD 0

/-- Processing of one entry of the upper level inside the
`generate_levels` gap loop (src/grid.rs lines 777-823).  State: the lower
level being extended, the `first_rev` suffix for the upper level, and the
dummy-id counter. -/
def genLevelsNode (ag : AcyclicDirectedGraph) (reved : List (ID × ID))
    (first : List InternalNode)
    (st : List InternalNode × List InternalNode × Nat) (fnode : InternalNode) :
    List InternalNode × List InternalNode × Nat :=
  match fnode with
  | InternalNode.user uid =>
    let gsuccs := (ag.successors uid).getD []
    gsuccs.foldl (fun (st2 : List InternalNode × List InternalNode × Nat) gsucc =>
      let (second, firstRev, dId) := st2
      let (second, firstRev, dId) :=
        if reved.any (fun re => re.1 = gsucc) then
          (second ++ [InternalNode.reverseDummy (dId + 1) gsucc uid],
           firstRev ++ [InternalNode.reverseDummy dId gsucc uid],
           dId + 2)
        else (second, firstRev, dId)
      if second.any (fun sid =>
          match sid with
          | InternalNode.user u => gsucc = u
          | _ => false) then
        (second, firstRev, dId)
      else (second ++ [InternalNode.dummy dId uid gsucc], firstRev, dId + 1)) st
  | InternalNode.dummy _ src target =>
    let (second, firstRev, dId) := st
    if second.any (fun sid =>
        match sid with
        | InternalNode.user u => target = u
        | _ => false) then st
    else (second ++ [InternalNode.dummy dId src target], firstRev, dId + 1)
  | InternalNode.reverseDummy _ src target =>
    let (second, firstRev, dId) := st
    if first.any (fun n =>
        match n with
        | InternalNode.user u => u = src
        | _ => false) then st
    else (second ++ [InternalNode.reverseDummy dId src target], firstRev, dId + 1)

/-- One iteration of the gap loop of `generate_levels`: mutate levels
`index` and `index + 1` in place. -/
def genLevelsIndex (ag : AcyclicDirectedGraph) (reved : List (ID × ID))
    (st : List (List InternalNode) × Nat) (index : Nat) :
    List (List InternalNode) × Nat :=
  let arr := st.1
  let first := arr.getD index []
  let second := arr.getD (index + 1) []
  let res := first.foldl (genLevelsNode ag reved first) (second, [], st.2)
  ((arr.set index (first ++ res.2.1)).set (index + 1) res.1, res.2.2)

/-- `Grid::generate_levels` (src/grid.rs lines 742-830): wrap the level
lists into `InternalNode` rows, add an empty boundary level on both ends
whenever the reversed-edge list is non-empty, then insert dummy chains
gap by gap. -/
def generateLevels (levels : List (List ID)) (ag : AcyclicDirectedGraph)
    (reved : List (ID × ID)) : List (List InternalNode) :=
  if levels.isEmpty then []
  else
    let internal := levels.map (fun l => l.map InternalNode.user)
    let internal :=
      if reved.isEmpty then internal else [[]] ++ internal ++ [[]]
    let idxs :=
      if reved.isEmpty then List.range' 0 (internal.length - 1)
      else List.range' 1 (internal.length - 2 - 1)
    (idxs.foldl (genLevelsIndex ag reved) (internal, 0)).1

/-! ### `grid.rs::generate_horizontal` -/

/-- The per-entry offset used by every column computation in
`generate_horizontal`: display width of each preceding entry (name length
for a `User`, 1 for a dummy). -/
def offsetUpTo (names : List (ID × String)) (lvl : List InternalNode)
    (k : Nat) : Nat :=
  ((lvl.take k).map (fun n =>
    match n with
    | InternalNode.user id => nameLen names id
    | _ => 1)).sum

/-- The `first_entries` / `second_entries` maps of `generate_horizontal`
(src/grid.rs lines 209-234): entry to (index, name length). -/
def entriesMap (names : List (ID × String)) (lvl : List InternalNode) :
    List (InternalNode × (Nat × Nat)) :=
  lvl.enum.foldl (fun acc p =>
    let len :=
      match p.2 with
      | InternalNode.user uid => nameLen names uid
      | _ => 0
    aupsert acc p.2 (p.1, len)) []

/-- The "Special case" `BottomBottom` connectors built from the reverse
dummies of the lower level (src/grid.rs lines 144-200). -/
def baseHorizontals (names : List (ID × String)) (second : List InternalNode)
    (maxX : Nat) : List Horizontal :=
  (second.enum.filterMap (fun p =>
    match p.2 with
    | InternalNode.reverseDummy _ src target => some (p.1, src, target)
    | _ => none)).filterMap (fun q =>
      match second.enum.findSome? (fun p =>
        match p.2 with
        | InternalNode.user uid =>
          if uid = q.2.2 then some (p.1, uid) else none
        | _ => none) with
      | none => none
      | some (targetIndex, targetUserId) =>
        let offT := offsetUpTo names second targetIndex
        let rawT := targetIndex * 2 + offT + nameLen names targetUserId / 2 + 1
        let targetX := min rawT maxX
        let offS := offsetUpTo names second q.1
        let rawS := q.1 * 2 + offS + 1
        let srcX := min rawS maxX
        some (Horizontal.bottomBottom srcX q.2.1 targetX
          (min srcX targetX, max srcX targetX)))

/-- The source coordinate of an entry of the upper level (src/grid.rs
lines 237-262). -/
def srcCoord (names : List (ID × String)) (first : List InternalNode)
    (maxX : Nat) (rawX : Nat) (e : InternalNode) : Nat :=
  let offset := offsetUpTo names first rawX
  min
    (match e with
     | InternalNode.user id => rawX * 2 + offset + nameLen names id / 2 + 1
     | _ => rawX * 2 + offset + 1)
    maxX

/-- Target coordinate of a continuation entry found in a level: position
lookup in the entries map plus the prefix offset (the repeated
`index * 2 + offset + in_node_offset / 2 + 1` blocks of
`generate_horizontal`). -/
def targetRawX (names : List (ID × String)) (lvl : List InternalNode)
    (entries : List (InternalNode × (Nat × Nat))) (tId : InternalNode) :
    Option (InternalNode × Nat) :=
  match alookup entries tId with
  | none => none
  | some (index, inNodeOffset) =>
    let offset := offsetUpTo names lvl index
    some (tId, index * 2 + offset + inNodeOffset / 2 + 1)

/-- The scan of the lower level that resolves a `Dummy`'s continuation
(src/grid.rs lines 311-317); evaluating the predicate on a `ReverseDummy`
hits a `todo!()`, and an unsuccessful scan hits `.unwrap()`: both are
`none`. -/
def findDummyCont (src target : ID) : List InternalNode → Option InternalNode
  | [] => none
  | e :: rest =>
    match e with
    | InternalNode.user uid =>
      if uid = target then some e else findDummyCont src target rest
    | InternalNode.dummy _ s t =>
      if s = src ∧ t = target then some e else findDummyCont src target rest
    | InternalNode.reverseDummy _ _ _ => none

/-- The successor/continuation list of one source entry together with the
raw target coordinates (the three-armed `match src_entry` of
`generate_horizontal`, src/grid.rs lines 269-417). -/
def succsOf (ag : AcyclicDirectedGraph) (names : List (ID × String))
    (first second : List InternalNode)
    (firstEntries secondEntries : List (InternalNode × (Nat × Nat)))
    (srcEntry : InternalNode) : Option (List (InternalNode × Nat)) :=
  match srcEntry with
  | InternalNode.user id =>
    let rawSuccs := (ag.successors id).getD []
    rawSuccs.foldlM (fun acc succId =>
      match second.find? (fun sid =>
        match sid with
        | InternalNode.user uid => uid = succId
        | InternalNode.dummy _ s t => decide (s = id ∧ t = succId)
        | InternalNode.reverseDummy _ s t => decide (s = id ∧ t = succId)) with
      | none => none
      | some tId =>
        match targetRawX names second secondEntries tId with
        | none => none
        | some r => some (acc ++ [r])) []
  | InternalNode.dummy _ src target =>
    match findDummyCont src target second with
    | none => none
    | some tId =>
      match targetRawX names second secondEntries tId with
      | none => none
      | some r => some [r]
  | InternalNode.reverseDummy _ src target =>
    match first.find? (fun n =>
      match n with
      | InternalNode.user uid => uid = src
      | _ => false) with
    | some sameLayer =>
      match targetRawX names first firstEntries sameLayer with
      | none => none
      | some r => some [r]
    | none =>
      match second.find? (fun sid =>
        match sid with
        | InternalNode.reverseDummy _ s t => decide (s = src ∧ t = target)
        | _ => false) with
      | none => none
      | some tId =>
        match targetRawX names second secondEntries tId with
        | none => none
        | some r => some [r]

/-- Whether the resolved continuation is a plain `Dummy`
(`matches!(t_id, InternalNode::Dummy { .. })`). -/
def isDummyNode : InternalNode → Bool
  | InternalNode.dummy _ _ _ => true
  | _ => false

/-- `Grid::generate_horizontal` (src/grid.rs lines 136-492): connectors
between one pair of adjacent levels; `none` models the panics
(`expect`, `unwrap`, `todo!`, `unreachable!`) of the source. -/
def generateHorizontal (ag : AcyclicDirectedGraph)
    (first second : List InternalNode) (names : List (ID × String))
    (maxX : Nat) : Option (List Horizontal) :=
  let base := baseHorizontals names second maxX
  let firstEntries := entriesMap names first
  let secondEntries := entriesMap names second
  match first.enum.foldlM (fun acc p =>
    let root := srcCoord names first maxX p.1 p.2
    match succsOf ag names first second firstEntries secondEntries p.2 with
    | none => none
    | some succList =>
      let targets := succList.map (fun q => (min q.2 maxX, isDummyNode q.1))
      let sx := (targets.map Prod.fst).foldl min root
      let tx := (targets.map Prod.fst).foldl max root
      if targets.isEmpty then some acc
      else
        match p.2 with
        | InternalNode.user src =>
          some (acc ++ [Horizontal.topBottom root src targets (sx, tx)])
        | InternalNode.dummy _ src _ =>
          some (acc ++ [Horizontal.topBottom root src targets (sx, tx)])
        | InternalNode.reverseDummy _ src target =>
          if first.any (fun n =>
              match n with
              | InternalNode.user uid => uid = src
              | _ => false) then
            match targets.head? with
            | none => none
            | some (c, _) =>
              some (acc ++ [Horizontal.topTop root src c (sx, tx)])
          else if (second.enum.find? (fun pr =>
              match pr.2 with
              | InternalNode.reverseDummy _ s t => decide (s = src ∧ t = target)
              | _ => false)).isSome then
            match targets.head? with
            | none => none
            | some (tgt, _) =>
              some (acc ++
                [Horizontal.bottomTop tgt src root (min tgt root, max tgt root)])
          else none) ([] : List Horizontal) with
  | none => none
  | some temp => some (temp ++ base)

/-- `Grid::generate_horizontals` (src/grid.rs lines 495-512): one
connector list per window of two adjacent levels. -/
def generateHorizontals (ag : AcyclicDirectedGraph)
    (levels : List (List InternalNode)) (names : List (ID × String))
    (maxX : Nat) : Option (List (List Horizontal)) :=
  (levels.zip levels.tail).mapM
    (fun w => generateHorizontal ag w.1 w.2 names maxX)

/-! ### `grid.rs::determine_ys` -/

/-- Whether a connector's column span is non-degenerate
(`x_bounds.0 != x_bounds.1`). -/
def nondegenerate (h : Horizontal) : Bool :=
  ¬ h.xBounds.1 = h.xBounds.2

/-- The row-assignment scan of `determine_ys` (src/grid.rs lines 594-606):
the running row starts at `src_y + 2` and advances by `1 +
horizontal_spacer` after every non-degenerate connector. -/
def determineYsRows (spacer : Nat) :
    Nat → List Horizontal → List (Horizontal × Nat)
  | _, [] => []
  | y, h :: rest =>
    (h, y) :: determineYsRows spacer
      (if nondegenerate h then y + 1 + spacer else y) rest

/-- The `final_y` accumulation of `determine_ys` (src/grid.rs lines
578-592): every non-degenerate connector but the last contributes `1 +
spacer`, a non-degenerate last connector contributes 1. -/
def determineYsFinal (srcY spacer : Nat) (horis : List Horizontal) : Nat :=
  srcY +
    (horis.enum.map (fun p =>
      if p.1 < horis.length - 1 ∧ nondegenerate p.2 then 1 + spacer
      else if p.1 = horis.length - 1 ∧ nondegenerate p.2 then 1
      else 0)).sum +
    4

/-- `Grid::determine_ys` (src/grid.rs lines 568-607). -/
def determineYs (srcY : Nat) (horis : List Horizontal) (spacer : Nat) :
    List (Horizontal × Nat) × Nat :=
  (determineYsRows spacer (srcY + 2) horis, determineYsFinal srcY spacer horis)

/-! ### `grid/grid_structure.rs`: rows, cursor and cell writes -/

/-- Pad a row with `Empty` cells up to length `n` (the `while .. push`
loops of `Row::set` / `Cursor::set`). -/
def padRow (row : List Entry) (n : Nat) : List Entry :=
  row ++ List.replicate (n - row.length) Entry.empty

/-- `Row::set` (src/grid/grid_structure.rs lines 68-75): pad, then merge
the new entry into cell `x`. -/
def rowSet (row : List Entry) (x : Nat) (e : Entry) : Option (List Entry) :=
  let row1 := padRow row (x + 1)
  match mergeEntry (row1.getD x Entry.empty) e with
  | none => none
  | some e' => some (row1.set x e')

/-- `InnerGrid::set` (src/grid/grid_structure.rs lines 29-47): pad the row
list up to row `y` (`row_mut`), then write into it. -/
def gridSet (grid : List (List Entry)) (x y : Nat) (e : Entry) :
    Option (List (List Entry)) :=
  let grid1 := grid ++ List.replicate ((y + 1) - grid.length) ([] : List Entry)
  match rowSet (grid1.getD y []) x e with
  | none => none
  | some row => some (grid1.set y row)

/-- `Cursor::set` (src/grid/grid_structure.rs lines 114-124): write at the
cursor column and advance. -/
def cursorSet (c : Nat × List Entry) (e : Entry) : Option (Nat × List Entry) :=
  match rowSet c.2 c.1 e with
  | none => none
  | some row => some (c.1 + 1, row)

/-- `Cursor::set_node`: stamp the node's cells at the cursor.  The
snapshot's grid_structure.rs is a stale revision that formats the id
itself; the call sites in grid.rs pass the display name explicitly, and
the number of cells follows that name (parts `0..name.length`), matching
the width arithmetic of `generate_horizontal` and the name emitted by
`Entry::fdisplay`. -/
def cursorSetNode (c : Nat × List Entry) (entry : LevelEntry) (name : String) :
    Option (Nat × List Entry) :=
  let length := name.length
  let lastX := c.1 + length
  let row := padRow c.2 (lastX + 1)
  match (List.range length).foldlM (fun r part =>
    rowSet r (c.1 + part) (Entry.node entry.toEntryNode part)) row with
  | none => none
  | some row' => some (lastX, row')

/-! ### `grid.rs::insert_nodes`, `connect_layer`, `construct` -/

/-- `Grid::insert_nodes` (src/grid.rs lines 514-559): walk the row with a
cursor, stamping ` <label> ` per user node and a bare dummy cell per
dummy, clipping to `max_x` (`Cursor::next_x`/`set_x` are modelled from
the spec, section 7: overflow entries are clipped to the maximum
column). -/
def insertNodes (y : Nat) (grid : List (List Entry))
    (level : List InternalNode) (names : List (ID × String)) (maxX : Nat) :
    Option (List (List Entry)) :=
  let grid1 := grid ++ List.replicate ((y + 1) - grid.length) ([] : List Entry)
  let row := grid1.getD y []
  match level.foldlM (fun (c : Nat × List Entry) entry =>
    if maxX < c.1 then
      match entry with
      | InternalNode.user _ => none
      | InternalNode.dummy _ src target =>
        cursorSetNode (maxX, c.2) (LevelEntry.dummy src target) ""
      | InternalNode.reverseDummy _ src target =>
        cursorSetNode (maxX, c.2) (LevelEntry.dummy src target) ""
    else
      match cursorSet c Entry.empty with
      | none => none
      | some c1 =>
        match
          (match entry with
           | InternalNode.user id =>
             match alookup names id with
             | none => none
             | some name => cursorSetNode c1 (LevelEntry.user id) name
           | InternalNode.dummy _ src target =>
             cursorSetNode c1 (LevelEntry.dummy src target) ""
           | InternalNode.reverseDummy _ src target =>
             cursorSetNode c1 (LevelEntry.dummy src target) "") with
        | none => none
        | some c2 => cursorSet c2 Entry.empty) (0, row) with
  | none => none
  | some c => some (grid1.set y c.2)

/-- Left-closed right-open row range `[a, b)` used by the drawing loops. -/
def rangeCO (a b : Nat) : List Nat :=
  List.range' a (b - a)

/-- Inclusive row range `[a, b]`. -/
def rangeCC (a b : Nat) : List Nat :=
  List.range' a (b + 1 - a)

/-- Drawing of a single connector at its assigned row (the `match hori`
of `connect_layer`, src/grid.rs lines 644-737).  `y` is the mutable row
counter (already two past the node row), `lowestY` the gap's final row. -/
def drawHori (grid : List (List Entry)) (y lowestY : Nat)
    (h : Horizontal) (yHeight : Nat) : Option (List (List Entry)) :=
  match h with
  | Horizontal.topBottom srcX src targets xBounds =>
    let step1 : Option (List (List Entry)) :=
      if ¬ xBounds.1 = xBounds.2 then
        (rangeCO xBounds.1 (xBounds.2 + 1)).foldlM
          (fun g x => gridSet g x yHeight (Entry.horizontal src)) grid
      else some grid
    match step1 with
    | none => none
    | some g1 =>
      match (rangeCC (y - 1) yHeight).foldlM
          (fun g vy => gridSet g srcX vy (Entry.vertical (some src))) g1 with
      | none => none
      | some g2 =>
        targets.foldlM (fun g t =>
          match (rangeCO yHeight (lowestY - 1)).foldlM
              (fun g ty => gridSet g t.1 ty (Entry.vertical (some src))) g with
          | none => none
          | some g3 =>
            match (rangeCO yHeight (y - 1)).foldlM
                (fun g py => gridSet g t.1 py (Entry.vertical (some src))) g3 with
            | none => none
            | some g4 =>
              let ent := if t.2 then Entry.vertical (some src)
                         else Entry.arrowDown (some src)
              gridSet g4 t.1 (lowestY - 1) ent) g2
  | Horizontal.bottomTop srcX src target xBounds =>
    let step1 : Option (List (List Entry)) :=
      if ¬ xBounds.1 = xBounds.2 then
        (rangeCO xBounds.1 (xBounds.2 + 1)).foldlM
          (fun g x => gridSet g x yHeight (Entry.horizontal src)) grid
      else some grid
    match step1 with
    | none => none
    | some g1 =>
      match (rangeCC (y - 1) yHeight).foldlM
          (fun g vy => gridSet g target vy (Entry.vertical (some src))) g1 with
      | none => none
      | some g2 =>
        match (rangeCC yHeight (lowestY - 1)).foldlM
            (fun g ty => gridSet g srcX ty (Entry.vertical (some src))) g2 with
        | none => none
        | some g3 =>
          (rangeCO yHeight (y - 1)).foldlM
            (fun g py => gridSet g srcX py (Entry.vertical (some src))) g3
  | Horizontal.topTop srcX src target xBounds =>
    let step1 : Option (List (List Entry)) :=
      if ¬ xBounds.1 = xBounds.2 then
        (rangeCO xBounds.1 (xBounds.2 + 1)).foldlM
          (fun g x => gridSet g x yHeight (Entry.horizontal src)) grid
      else some grid
    match step1 with
    | none => none
    | some g1 =>
      match (rangeCC (y - 1) yHeight).foldlM
          (fun g vy => gridSet g srcX vy (Entry.vertical (some src))) g1 with
      | none => none
      | some g2 =>
        (rangeCC (y - 1) yHeight).foldlM
          (fun g vy => gridSet g target vy (Entry.vertical (some src))) g2
  | Horizontal.bottomBottom srcX src target xBounds =>
    let step1 : Option (List (List Entry)) :=
      if ¬ xBounds.1 = xBounds.2 then
        (rangeCO xBounds.1 (xBounds.2 + 1)).foldlM
          (fun g x => gridSet g x yHeight (Entry.horizontal src)) grid
      else some grid
    match step1 with
    | none => none
    | some g1 =>
      match (rangeCO yHeight lowestY).foldlM
          (fun g vy => gridSet g srcX vy (Entry.vertical (some src))) g1 with
      | none => none
      | some g2 =>
        match (rangeCO yHeight (lowestY - 1)).foldlM
            (fun g vy => gridSet g target vy (Entry.vertical (some src))) g2 with
        | none => none
        | some g3 =>
          gridSet g3 target (lowestY - 1) (Entry.arrowDown (some src))

/-- `Grid::connect_layer` (src/grid.rs lines 610-740): stamp the node
row, the stub row of vertical cells, then draw every connector at its
`determine_ys` row; returns the grid and the new row counter. -/
def connectLayer (cfg : Config) (names : List (ID × String)) (y : Nat)
    (level : List InternalNode) (grid : List (List Entry))
    (horizontals : List Horizontal) :
    Option (List (List Entry) × Nat) :=
  match insertNodes y grid level names (cfg.glyphWidth - 1) with
  | none => none
  | some grid1 =>
    let y1 := y + 1
    match horizontals.foldlM (fun g h =>
      match h with
      | Horizontal.topBottom srcX src _ _ =>
        gridSet g srcX y1 (Entry.vertical (some src))
      | Horizontal.bottomTop _ src target _ =>
        gridSet g target y1 (Entry.vertical (some src))
      | Horizontal.topTop srcX src _ _ =>
        gridSet g srcX y1 (Entry.vertical (some src))
      | Horizontal.bottomBottom _ _ _ _ => some g) grid1 with
    | none => none
    | some grid2 =>
      let y2 := y1 + 1
      let res := determineYs (y2 - 2) horizontals cfg.verticalEdgeSpacing
      match res.1.foldlM (fun g p => drawHori g y2 res.2 p.1 p.2) grid2 with
      | none => none
      | some grid3 => some (grid3, res.2)

/-- `Grid::construct` (src/grid.rs lines 833-865): generate the internal
levels and their connectors, then connect every layer top to bottom
(missing connector lists default to empty via the `repeat_with` chain). -/
def Grid.construct (ag : AcyclicDirectedGraph) (levels : List (List ID))
    (reved : List (ID × ID)) (cfg : Config) (names : List (ID × String)) :
    Option (List (List Entry)) :=
  let internal := generateLevels levels ag reved
  match generateHorizontals ag internal names (cfg.glyphWidth - 1) with
  | none => none
  | some horis =>
    (internal.enum.foldlM (fun (st : List (List Entry) × Nat) p =>
      connectLayer cfg names st.2 p.2 st.1 (horis.getD p.1 [])) ([], 0)).map
      (fun (st : List (List Entry) × Nat) => st.1)

/-! ### `grid.rs::display` and `grid/entry.rs::fdisplay` -/

/-- The mutable state captured by the `get_color` closure of
`Grid::display` (src/grid.rs lines 868-881): the id-to-color memo map and
the `current_color` counter. -/
structure ColorState where
  colors : List (ID × Color)
  currentColor : Nat
deriving DecidableEq, Repr

/-- The `get_color` closure (src/grid.rs lines 871-881): no palette means
no color; a fresh edge id bumps the counter and indexes the palette at
`current_color % palette length`.  `none` models the panic of that
indexing (with an empty palette the modulus is a division by zero). -/
def getColorFn (palette : Option (List Color)) (st : ColorState) (id : ID) :
    Option (Option Nat × ColorState) :=
  match palette with
  | none => some (none, st)
  | some p =>
    match alookup st.colors id with
    | some c => some (some c.code, st)
    | none =>
      let cur := st.currentColor + 1
      match p.get? (cur % p.length) with
      | none => none
      | some c =>
        some (some c.code, ⟨aupsert st.colors id c, cur⟩)

/-- ANSI-wrap a glyph when a color is selected (the
`write!(dest, "\x1b[{}m{}\x1b[0m", ..)` arms of `fdisplay`). -/
def colorWrap (palette : Option (List Color)) (st : ColorState) (id : ID)
    (glyph : String) : Option (String × ColorState) :=
  match getColorFn palette st id with
  | none => none
  | some (none, st') => some (glyph, st')
  | some (some c, st') =>
    some ("\x1b[" ++ Nat.repr c ++ "m" ++ glyph ++ "\x1b[0m", st')

/-- `Entry::fdisplay` (src/grid/entry.rs lines 111-161) producing the
cell's byte string; `get_name` is the `self.names.get(id).unwrap()`
lookup of `Grid::display`. -/
def entryStr (palette : Option (List Color)) (names : List (ID × String))
    (glyphs : LineGlyphs) (st : ColorState) (e : Entry) :
    Option (String × ColorState) :=
  match e with
  | Entry.empty => some (" ", st)
  | Entry.openParen => some ("(", st)
  | Entry.closeParen => some (")", st)
  | Entry.horizontal src =>
    colorWrap palette st src (String.singleton glyphs.horizontal)
  | Entry.vertical (some src) =>
    colorWrap palette st src (String.singleton glyphs.vertical)
  | Entry.vertical none => some (String.singleton glyphs.vertical, st)
  | Entry.cross (some src) =>
    colorWrap palette st src (String.singleton glyphs.crossing)
  | Entry.cross none => some (String.singleton glyphs.crossing, st)
  | Entry.arrowDown (some src) =>
    colorWrap palette st src (String.singleton glyphs.arrowDown)
  | Entry.arrowDown none => some (String.singleton glyphs.arrowDown, st)
  | Entry.node _ (_ + 1) => some ("", st)
  | Entry.node en 0 =>
    match en with
    | EntryNode.user id =>
      match alookup names id with
      | none => none
      | some n => some (n, st)
    | EntryNode.singleSrc src => colorWrap palette st src "|"
    | EntryNode.multiSrc => some ("|", st)

/-- `Grid::display` (src/grid.rs lines 867-893) as a byte-string
producer: row-major scan, one newline per row (`println!`). -/
def gridRowStr (palette : Option (List Color)) (names : List (ID × String))
    (glyphs : LineGlyphs) (acc : String × ColorState) (row : List Entry) :
    Option (String × ColorState) :=
  match row.foldlM (fun (a : String × ColorState) e =>
      match entryStr palette names glyphs a.2 e with
      | none => none
      | some r => some (a.1 ++ r.1, r.2)) acc with
  | none => none
  | some a => some (a.1 ++ "\n", a.2)

/-- Full-grid serialization driver of `Grid::display`. -/
def gridDisplay (grid : List (List Entry)) (palette : Option (List Color))
    (names : List (ID × String)) (glyphs : LineGlyphs) : Option String :=
  match grid.foldlM (gridRowStr palette names glyphs)
      (("", ⟨[], 0⟩) : String × ColorState) with
  | none => none
  | some a => some a.1

/-- The `display` entry point (src/lib.rs lines 61-78, with the stage
wiring of the levels.rs/grid.rs revision: the snapshot's lib.rs body is a
stale draft whose calls do not match the other modules' signatures):
empty graphs print nothing; otherwise break cycles, compute levels with
the formatted names, build the grid and serialize it, with one final
empty `println!`. -/
def displayFn (g : DirectedGraph) (cfg : Config) (fuel : Nat) :
    Option String :=
  if g.isEmpty then some ""
  else
    match g.toAcyclic fuel with
    | none => none
    | some (agraph, revedEdges) =>
      let names := agraph.nodes.map (fun p => (p.1, formatNode p.1))
      match GraphLevels.construct agraph cfg names fuel with
      | none => none
      | some levels =>
        match Grid.construct agraph levels revedEdges cfg names with
        | none => none
        | some grid =>
          match gridDisplay grid cfg.colorPalette names cfg.lineGlyphs with
          | none => none
          | some s => some (s ++ "\n")

/-! ### Declarative reachability (statement vocabulary) -/

/-- A path of length at least one from `u` to `v` along the adjacency
`edges` (an absent entry meaning no successors, as in
`edges.get(id)` / `unwrap_or_default`). -/
inductive Reaches (edges : List (ID × List ID)) : ID → ID → Prop
  | single {u v : ID} (h : v ∈ (alookup edges u).getD []) : Reaches edges u v
  | head {u w v : ID} (h : w ∈ (alookup edges u).getD [])
      (h2 : Reaches edges w v) : Reaches edges u v

/-- Edge relation of an adjacency list. -/
def edgeIn (edges : List (ID × List ID)) (u v : ID) : Prop :=
  v ∈ (alookup edges u).getD []

instance (edges : List (ID × List ID)) (u v : ID) :
    Decidable (edgeIn edges u v) := by
  unfold edgeIn
  exact inferInstance

/-- Successor list read off an adjacency (an absent entry reads as no
successors). -/
def succsE (edges : List (ID × List ID)) (u : ID) : List ID :=
  (alookup edges u).getD []

/-- The per-node removal set computed inside `transitive_reduction`
(src/acyclic.rs lines 79-100), factored out of the fold: the successors
of `n` that are also reachable from some successor of `n` according to
the memo map `R`. -/
def rmValue (gE R : List (ID × List ID)) (n : ID) : List ID :=
  let eds := succsE gE n
  let succReachs := sfromList (eds.flatMap (fun s => (alookup R s).getD []))
  let uniqueEdges := sfromList (eds.filter (fun v => ¬ containsD succReachs v))
  sfromList (eds.filter (fun v => ¬ containsD uniqueEdges v))

/-- Invariant of the memo map built by the reachability worklist: every
entry was computed, at the time it was appended, from entries before it —
each successor already memoized, and the stored set being the successor
set united with the successors' memoized sets. -/
def ReachInv (edges : List (ID × List ID)) (R : List (ID × List ID)) : Prop :=
  ∀ i p, R[i]? = some p →
    (∀ s ∈ succsE edges p.1, acontains (R.take i) s = true) ∧
    p.2 = sfromList ((succsE edges p.1).flatMap
      (fun s => (alookup (R.take i) s).getD []) ++ succsE edges p.1)

/-! ### Claim-side (specification) definitions -/

/-- Claim-side budget test of C1, following the specification's words
(spec section 4.3): placing `v` must not exceed the maximum node count per
level, nor the maximum cumulative glyph width per level, the glyph width
of a node being its formatted-label length plus 2.  This deliberately
follows the claim, not the code (`levelFits`), so the two can be
compared. -/
def specLevelWithinBudgets (cfg : Config) (names : List (ID × String))
    (level : List ID) (v : ID) : Bool :=
  decide (level.length + 1 ≤ cfg.maxPerLayer) &&
  decide (((level ++ [v]).map
    (fun n => ((alookup names n).map String.length).getD 0 + 2)).sum
      ≤ cfg.maxGlyphsPerLayer)

/-- Whether an internal slot is a `ReverseDummy` (the anchor entries the
reversed-edge routing places next to a level). -/
def isReverseDummy : InternalNode → Bool
  | InternalNode.reverseDummy _ _ _ => true
  | _ => false

/-! ### Concrete input graphs used by the witnesses and counterexamples -/

/-- Chain 0 → 1 → 2 (spec scenario A), an acyclic input. -/
def graphChain : DirectedGraph :=
  (DirectedGraph.new.addNodes
    [(0, "first"), (1, "second"), (2, "third")]).addEdges [(0, 1), (1, 2)]

/-- Diamond 0 → {1,2} → 3 (spec scenario B), nodes inserted as
0, 1, 2, 3. -/
def graphDiamond : DirectedGraph :=
  (DirectedGraph.new.addNodes
    [(0, "a"), (1, "b"), (2, "c"), (3, "d")]).addEdges
    [(0, 1), (0, 2), (1, 3), (2, 3)]

/-- The same diamond snapshot with the node map iterated in the order
0, 2, 1, 3: equal map content, different iteration order. -/
def graphDiamondPerm : DirectedGraph :=
  (DirectedGraph.new.addNodes
    [(0, "a"), (2, "c"), (1, "b"), (3, "d")]).addEdges
    [(0, 1), (0, 2), (1, 3), (2, 3)]

/-- Spillover input of spec scenario D: edges {(0,1),(0,2)}. -/
def graphSpill : DirectedGraph :=
  (DirectedGraph.new.addNodes
    [(0, "first"), (1, "second"), (2, "third")]).addEdges [(0, 1), (0, 2)]

/-- Redundant-edge input of spec scenario E: {(0,1),(0,2),(1,2)}. -/
def graphShortcut : DirectedGraph :=
  (DirectedGraph.new.addNodes
    [(0, "first"), (1, "second"), (2, "third")]).addEdges
    [(0, 1), (0, 2), (1, 2)]

/-- Two isolated nodes (no edges); exercises the width budget. -/
def graphTwoIsolated : DirectedGraph :=
  DirectedGraph.new.addNodes [(0, "a"), (1, "b")]

/-- A 2-cycle hanging off a chain: 0 → 1 → 2 ⇄ 1 again via (2,1), plus
(2,3).  Cyclic, with SCC {1,2}. -/
def graphTwoCycleTail : DirectedGraph :=
  (DirectedGraph.new.addNodes
    [(0, "a"), (1, "b"), (2, "c"), (3, "d")]).addEdges
    [(0, 1), (1, 2), (2, 1), (2, 3)]

/-- A cycle at the bottom of a chain: 0 → 1 → 2 ⇄ 3. -/
def graphBottomCycle : DirectedGraph :=
  (DirectedGraph.new.addNodes
    [(0, "a"), (1, "b"), (2, "c"), (3, "d")]).addEdges
    [(0, 1), (1, 2), (2, 3), (3, 2)]

/-- The acyclic view `to_acyclic` produces for `graphBottomCycle` (edge
(2,3) flipped). -/
def acyclicBottomCycle : AcyclicDirectedGraph :=
  ⟨[(0, "a"), (1, "b"), (2, "c"), (3, "d")],
   [(0, [1]), (1, [2]), (2, []), (3, [2])]⟩

/-- `IDFormatter` names for nodes 0-3. -/
def namesFour : List (ID × String) :=
  [(0, "(0)"), (1, "(1)"), (2, "(2)"), (3, "(3)")]

/-- A single node carrying a self-loop edge. -/
def graphSelfLoop : DirectedGraph :=
  (DirectedGraph.new.addNodes [(0, "a")]).addEdges [(0, 0)]

/-- Config with room for 5 nodes per level but only 11 glyph columns. -/
def cfgNarrow : Config := (Config.new 5).withMaxGlyphsPerLayer 11

/-- `IDFormatter` names for two nodes. -/
def namesTwo : List (ID × String) := [(0, "(0)"), (1, "(1)")]

/-- `IDFormatter` names for three nodes. -/
def namesThree : List (ID × String) := [(0, "(0)"), (1, "(1)"), (2, "(2)")]

end Termgraph

namespace Termgraph

/-! ## Theorems -/

/-- Claim C9: for every input graph whose strongly connected components
(as computed by the crate's Tarjan pass) are all singletons, `to_acyclic`
returns the graph with its edge set unchanged together with an empty
reversed-edge list. -/
theorem claim_C9_theorem (g : DirectedGraph) (fuel : Nat)
    (l : List (List ID)) (hs : sccsFn g.nodes g.edges = some l)
    (hall : allSingleton l = true) :
    g.toAcyclic fuel = some (⟨g.nodes, g.edges⟩, []) := by
  simp only [DirectedGraph.toAcyclic]
  rw [hs]
  simp [hall]

/-- Witness for C9: the chain 0 → 1 → 2 is acyclic and is returned
unchanged. -/
theorem claim_C9_witness :
    sccsFn graphChain.nodes graphChain.edges = some [[2], [1], [0]] ∧
    allSingleton [[2], [1], [0]] = true ∧
    graphChain.toAcyclic 5 = some (⟨graphChain.nodes, graphChain.edges⟩, []) :=
  ⟨by decide, by decide,
   claim_C9_theorem graphChain 5 [[2], [1], [0]] (by decide) (by decide)⟩

/-- Claim C10: with no configured palette or a non-empty palette the
per-edge color selection of `Grid::display` never panics, and with a
non-empty palette its index `current_color % palette length` is in
bounds; a configured empty palette panics on the first use of an edge id
(modulo by zero / out-of-bounds indexing). -/
theorem claim_C10_theorem (p : List Color) (st : ColorState) (id : ID)
    (hp : ¬ p = []) :
    (getColorFn none st id).isSome = true ∧
    (getColorFn (some p) st id).isSome = true ∧
    (st.currentColor + 1) % p.length < p.length ∧
    (alookup st.colors id = none →
      getColorFn (some ([] : List Color)) st id = none) := by
  have hlen : 0 < p.length := List.length_pos.mpr hp
  have hmod : (st.currentColor + 1) % p.length < p.length :=
    Nat.mod_lt _ hlen
  refine ⟨rfl, ?_, hmod, ?_⟩
  · unfold getColorFn
    cases h : alookup st.colors id with
    | some c => simp
    | none =>
      have hsome : (p[(st.currentColor + 1) % p.length]?).isSome := by
        simp [List.getElem?_eq_getElem hmod]
      cases hg : p[(st.currentColor + 1) % p.length]? with
      | none => rw [hg] at hsome; simp at hsome
      | some c => simp [hg]
  · intro h
    unfold getColorFn
    rw [h]
    simp

/-- Witness for C10 at the one-color palette and the empty initial
state. -/
theorem claim_C10_witness :
    ¬ ([Color.red] = ([] : List Color)) ∧
    ((getColorFn none ⟨[], 0⟩ 0).isSome = true ∧
     (getColorFn (some [Color.red]) ⟨[], 0⟩ 0).isSome = true ∧
     (0 + 1) % [Color.red].length < [Color.red].length ∧
     (alookup (ColorState.mk [] 0).colors 0 = none →
       getColorFn (some ([] : List Color)) ⟨[], 0⟩ 0 = none)) :=
  ⟨by decide, claim_C10_theorem [Color.red] ⟨[], 0⟩ 0 (by decide)⟩

/-- The reachability worklist of `transitive_reduction` diverges on a
self-loop: a stack of copies of the looping node only ever grows. -/
theorem reachAux_selfLoop_none :
    ∀ fuel k, reachAux [(0, [0])] fuel (List.replicate (k + 1) 0) [] = none := by
  intro fuel
  induction fuel with
  | zero => intro k; rfl
  | succ f ih =>
    intro k
    have h1 : List.replicate (k + 1) (0 : ID) = 0 :: List.replicate k 0 :=
      List.replicate_succ _ _
    rw [h1]
    have h2 : reachAux [(0, [0])] (f + 1) (0 :: List.replicate k 0) [] =
        reachAux [(0, [0])] f (0 :: 0 :: List.replicate k 0) [] := by
      rfl
    rw [h2]
    have h3 : (0 : ID) :: 0 :: List.replicate k 0 = List.replicate (k + 1 + 1) 0 := by
      rw [List.replicate_succ, List.replicate_succ]
    rw [h3]
    exact ih (k + 1)

/-- Claim C2 (code bug): on the single-node graph with a self-loop,
cycle breaking returns the graph unchanged (the self-loop survives, its
component being a singleton), and the transitive-reduction stage then
fails to terminate for every amount of fuel — `display` never returns. -/
theorem claim_C2_theorem :
    graphSelfLoop.toAcyclic 1 =
      some (⟨graphSelfLoop.nodes, graphSelfLoop.edges⟩, []) ∧
    ∀ fuel,
      (AcyclicDirectedGraph.mk graphSelfLoop.nodes
        graphSelfLoop.edges).transitiveReduction fuel = none := by
  constructor
  · decide
  · intro fuel
    have hn : graphSelfLoop.nodes = [(0, "a")] := rfl
    have he : graphSelfLoop.edges = [(0, [0])] := rfl
    rw [hn, he]
    have hcr : computeReachable [(0, "a")] [(0, [0])] fuel = none := by
      have h0 := reachAux_selfLoop_none fuel 0
      simp only [List.replicate_succ, List.replicate_zero] at h0
      simp [computeReachable, List.foldlM, acontains, alookup, h0]
    unfold AcyclicDirectedGraph.transitiveReduction
    rw [hcr]

/-- Counterexample to claim C3: two runs on the same graph snapshot (the
node maps hold the same entries — one is a permutation of the other,
modelling two iteration orders of the randomized `HashMap` — and the edge
maps are identical) render different byte streams: the middle level comes
out as `(2) (1)` in one run and `(1) (2)` in the other. -/
theorem claim_C3_counterexample :
    graphDiamond.nodes.Perm graphDiamondPerm.nodes ∧
    graphDiamond.edges = graphDiamondPerm.edges ∧
    displayFn graphDiamond (Config.new 3) 100 =
      some " (0) \n  |\n  +----+\n  |    |\n  V    V\n (2)  (1) \n  |    |\n  +----+\n  |\n  V\n (3) \n\n" ∧
    displayFn graphDiamondPerm (Config.new 3) 100 =
      some " (0) \n  |\n  +----+\n  |    |\n  V    V\n (1)  (2) \n  |    |\n  +----+\n  |\n  V\n (3) \n\n" ∧
    ¬ (displayFn graphDiamond (Config.new 3) 100 =
       displayFn graphDiamondPerm (Config.new 3) 100) := by
  refine ⟨by decide, rfl, rfl, rfl, ?_⟩
  decide

/-- Claim C3 as amended: the rendered byte stream is a deterministic
function of the graph as represented (snapshot plus hash-map iteration
order) and the configuration — equal represented inputs give equal bytes,
and a fixed iteration order reproduces an exact output, here pinned for
the diamond graph. -/
theorem claim_C3_theorem :
    (∀ (g g' : DirectedGraph) (cfg : Config) (fuel : Nat), g = g' →
      displayFn g cfg fuel = displayFn g' cfg fuel) ∧
    displayFn graphDiamondPerm (Config.new 3) 100 =
      some " (0) \n  |\n  +----+\n  |    |\n  V    V\n (1)  (2) \n  |    |\n  +----+\n  |\n  V\n (3) \n\n" := by
  refine ⟨?_, rfl⟩
  intro g g' cfg fuel h
  rw [h]

/-- Witness for C3 (amended): applying the determinism part at the
diamond graph. -/
theorem claim_C3_witness :
    graphDiamond = graphDiamond ∧
    displayFn graphDiamond (Config.new 3) 100 =
      displayFn graphDiamond (Config.new 3) 100 :=
  ⟨rfl, claim_C3_theorem.1 graphDiamond graphDiamond (Config.new 3) 100 rfl⟩

/-- Counterexample to claim C4: on the cyclic graph with nodes
{0,1,2,3} and edges {(0,1),(1,2),(2,1),(2,3)}, `to_acyclic` records the
reversed edge (1,2) while the greedy vertex-sequencing heuristic
(`calulate`, present in the crate but never called) produces the
feedback arc set [(2,1)] — the two sets differ. -/
theorem claim_C4_counterexample :
    graphTwoCycleTail.toAcyclic 100 =
      some (⟨graphTwoCycleTail.nodes, [(0, [1]), (1, []), (2, [1, 3])]⟩,
            [(1, 2)]) ∧
    calulate (graphTwoCycleTail.nodes.map Prod.fst) graphTwoCycleTail.edges =
      some [(2, 1)] ∧
    ¬ (((1 : ID), (2 : ID)) ∈ [((2 : ID), (1 : ID))]) := by
  refine ⟨by decide, by decide, by decide⟩

/-- Claim C4 as amended: `ReversedEdges` is produced by the
SCC-splitting loop of `to_acyclic`, not by the greedy vertex-sequencing
heuristic; on the graph above the loop records exactly [(1,2)] and
leaves an adjacency all of whose strongly connected components are
singletons. -/
theorem claim_C4_theorem :
    graphTwoCycleTail.toAcyclic 100 =
      some (⟨graphTwoCycleTail.nodes, [(0, [1]), (1, []), (2, [1, 3])]⟩,
            [(1, 2)]) ∧
    sccsFn graphTwoCycleTail.nodes [(0, [1]), (1, []), (2, [1, 3])] =
      some [[1], [0], [3], [2]] ∧
    allSingleton [[1], [0], [3], [2]] = true := by
  refine ⟨by decide, by decide, by decide⟩

/-- Counterexample to claim C7: on the graph 0 → 1 → 2 ⇄ 3 the reversed
edge is (2,3) and all reverse-dummy anchors sit next to the bottom
levels — the top two rows of the internal level list hold no
`ReverseDummy` and the top gap gets no connector at all — yet an empty
boundary level is still inserted above the top (and below the bottom):
the insertion is unconditional, not restricted to the side used as a
source anchor. -/
theorem claim_C7_counterexample :
    graphBottomCycle.toAcyclic 100 = some (acyclicBottomCycle, [(2, 3)]) ∧
    ¬ ([((2 : ID), (3 : ID))] = ([] : List (ID × ID))) ∧
    GraphLevels.construct acyclicBottomCycle (Config.new 3) namesFour 100 =
      some [[0], [1, 3], [2]] ∧
    generateLevels [[0], [1, 3], [2]] acyclicBottomCycle [(2, 3)] =
      [[], [InternalNode.user 0],
       [InternalNode.user 1, InternalNode.user 3,
        InternalNode.reverseDummy 0 2 1, InternalNode.reverseDummy 2 2 3],
       [InternalNode.user 2, InternalNode.reverseDummy 1 2 1,
        InternalNode.reverseDummy 3 2 3],
       []] ∧
    ((generateLevels [[0], [1, 3], [2]] acyclicBottomCycle [(2, 3)]).take 2).all
      (fun lvl => lvl.all (fun n => ¬ isReverseDummy n)) = true ∧
    generateHorizontal acyclicBottomCycle [] [InternalNode.user 0] namesFour
      (usizeMax - 1) = some [] := by
  refine ⟨by decide, by decide, by decide, by decide, by decide, by decide⟩

/-- Counterexample to claim C1: with an 11-glyph budget and two
isolated nodes labelled `(0)` and `(1)`, placing node 0 next to node 1
stays within both claimed budgets (2 ≤ 5 nodes, cumulative glyph width
10 ≤ 11), yet the code's check rejects the level (it requires the
existing width to stay below `budget - (label + 3)`), so the node spills
to a second level. -/
theorem claim_C1_counterexample :
    specLevelWithinBudgets cfgNarrow namesTwo [1] 0 = true ∧
    levelFits cfgNarrow namesTwo [1] 0 = false ∧
    GraphLevels.construct
      (AcyclicDirectedGraph.mk graphTwoIsolated.nodes graphTwoIsolated.edges)
      cfgNarrow namesTwo 100 = some [[0], [1]] := by
  refine ⟨by decide, by decide, by decide⟩

/-- The gap loop of `generate_levels` only writes to positions `idx` and
`idx + 1`, so positions 0 and `L - 1` keep their value whenever every
processed index satisfies `1 ≤ idx` and `idx + 1 < L - 1`. -/
theorem genLevels_fold_boundary (ag : AcyclicDirectedGraph)
    (reved : List (ID × ID)) (L : Nat) :
    ∀ (idxs : List Nat) (st : List (List InternalNode) × Nat),
      (∀ i ∈ idxs, 1 ≤ i ∧ i + 1 < L - 1) →
      st.1.length = L ∧ st.1[0]? = some [] ∧ st.1[L - 1]? = some [] →
      ((idxs.foldl (genLevelsIndex ag reved) st).1.length = L ∧
       (idxs.foldl (genLevelsIndex ag reved) st).1[0]? = some [] ∧
       (idxs.foldl (genLevelsIndex ag reved) st).1[L - 1]? = some []) := by
  intro idxs
  induction idxs with
  | nil => intro st _ hP; exact hP
  | cons i rest ih =>
    intro st hmem hP
    have hi := hmem i (List.mem_cons_self _ _)
    have hrest : ∀ j ∈ rest, 1 ≤ j ∧ j + 1 < L - 1 := by
      intro j hj; exact hmem j (List.mem_cons_of_mem _ hj)
    rw [List.foldl_cons]
    refine ih _ hrest ?_
    obtain ⟨hlen, h0, hlast⟩ := hP
    obtain ⟨X, Y, n, heq⟩ :
        ∃ X Y n, genLevelsIndex ag reved st i = ((st.1.set i X).set (i + 1) Y, n) :=
      ⟨_, _, _, rfl⟩
    rw [heq]
    refine ⟨?_, ?_, ?_⟩
    · simp [List.length_set, hlen]
    · rw [List.getElem?_set_ne (by omega), List.getElem?_set_ne (by omega)]
      exact h0
    · rw [List.getElem?_set_ne (by omega), List.getElem?_set_ne (by omega)]
      exact hlast

/-- Claim C7 as amended: whenever the reversed-edge list is non-empty,
`generate_levels` inserts an empty boundary level on both ends —
unconditionally, independent of which side the reversed edges anchor on —
and both boundary levels stay empty through the dummy-insertion loop. -/
theorem claim_C7_theorem (levels : List (List ID))
    (ag : AcyclicDirectedGraph) (reved : List (ID × ID))
    (hr : ¬ reved = []) (hl : ¬ levels = []) :
    (generateLevels levels ag reved).length = levels.length + 2 ∧
    (generateLevels levels ag reved)[0]? = some [] ∧
    (generateLevels levels ag reved)[levels.length + 1]? = some [] := by
  have hle : levels.isEmpty = false := by
    cases levels with
    | nil => exact absurd rfl hl
    | cons a l => rfl
  have hre : reved.isEmpty = false := by
    cases reved with
    | nil => exact absurd rfl hr
    | cons a l => rfl
  set mid := levels.map (fun (l : List ID) => l.map InternalNode.user) with hmid
  set internal := ([([] : List InternalNode)] ++ mid ++ [[]]) with hint
  have hgen : generateLevels levels ag reved =
      ((List.range' 1 (internal.length - 2 - 1)).foldl
        (genLevelsIndex ag reved) (internal, 0)).1 := by
    rw [hint, hmid]
    simp [generateLevels, hle, hre]
  have hmidlen : mid.length = levels.length := by
    rw [hmid, List.length_map]
  have hL : internal.length = levels.length + 2 := by
    rw [hint]
    simp only [List.length_append, List.length_cons, List.length_nil, hmidlen]
    omega
  have h0 : internal[0]? = some [] := by
    rw [hint]; simp
  have hlen1 : ([([] : List InternalNode)] ++ mid).length = levels.length + 1 := by
    simp [hmidlen]
  have hlast : internal[internal.length - 1]? = some [] := by
    have harr : internal = ([[]] ++ mid) ++ [([] : List InternalNode)] := by
      rw [hint]
    have hc : (([[]] ++ mid) ++ [([] : List InternalNode)])[([[]] ++ mid).length]? =
        some ([] : List InternalNode) :=
      List.getElem?_concat_length _ _
    have hidx : internal.length - 1 = ([([] : List InternalNode)] ++ mid).length := by
      omega
    rw [hidx, harr]
    exact hc
  have hmem : ∀ i ∈ List.range' 1 (internal.length - 2 - 1),
      1 ≤ i ∧ i + 1 < internal.length - 1 := by
    intro i hi
    have := List.mem_range'_1.mp hi
    omega
  have key := genLevels_fold_boundary ag reved internal.length
    (List.range' 1 (internal.length - 2 - 1)) (internal, 0) hmem
    ⟨rfl, h0, hlast⟩
  rw [hgen]
  refine ⟨key.1.trans hL, key.2.1, ?_⟩
  have hidx2 : levels.length + 1 = internal.length - 1 := by omega
  rw [hidx2]
  exact key.2.2

/-- Witness for C7 (amended) at the bottom-cycle input. -/
theorem claim_C7_witness :
    ¬ ([((2 : ID), (3 : ID))] = ([] : List (ID × ID))) ∧
    ¬ (([[0], [1, 3], [2]] : List (List ID)) = []) ∧
    ((generateLevels [[0], [1, 3], [2]] acyclicBottomCycle [(2, 3)]).length =
       ([[0], [1, 3], [2]] : List (List ID)).length + 2 ∧
     (generateLevels [[0], [1, 3], [2]] acyclicBottomCycle [(2, 3)])[0]? =
       some [] ∧
     (generateLevels [[0], [1, 3], [2]] acyclicBottomCycle
       [(2, 3)])[([[0], [1, 3], [2]] : List (List ID)).length + 1]? = some []) :=
  ⟨by decide, by decide,
   claim_C7_theorem [[0], [1, 3], [2]] acyclicBottomCycle [(2, 3)]
     (by decide) (by decide)⟩

/-- Padding a level vector with empty levels does not change the content
seen at any index (absent levels read as empty). -/
theorem pad_getD (l : List (List ID)) (n i : Nat) :
    (l ++ List.replicate (n - l.length) ([] : List ID)).getD i [] =
      l.getD i [] := by
  rw [List.getD_eq_getElem?_getD, List.getD_eq_getElem?_getD,
    List.getElem?_append]
  by_cases h : i < l.length
  · rw [if_pos h]
  · rw [if_neg h, List.getElem?_replicate,
      List.getElem?_eq_none (Nat.le_of_not_lt h)]
    by_cases hc : i - l.length < n - l.length
    · rw [if_pos hc]; rfl
    · rw [if_neg hc]

/-- Padding twice is padding once to the larger bound. -/
theorem pad_pad (l : List (List ID)) (a b : Nat) (h : a ≤ b) :
    (l ++ List.replicate (a - l.length) ([] : List ID)) ++
      List.replicate
        (b - (l ++ List.replicate (a - l.length) ([] : List ID)).length)
        ([] : List ID) =
      l ++ List.replicate (b - l.length) ([] : List ID) := by
  rw [List.append_assoc, ← List.replicate_add]
  have hlen : (l ++ List.replicate (a - l.length) ([] : List ID)).length =
      l.length + (a - l.length) := by
    rw [List.length_append, List.length_replicate]
  rw [hlen]
  have : a - l.length + (b - (l.length + (a - l.length))) = b - l.length := by
    omega
  rw [this]

/-- The placement loop of `distribute_nodes` places the node at exactly
the lowest level at or above the starting candidate that passes the
code's budget checks, every level below having been tried and rejected;
the returned vector is the input padded up to the chosen level with the
node appended there. -/
theorem placeLoop_characterize (cfg : Config) (names : List (ID × String))
    (v : ID) :
    ∀ (fuel start : Nat) (levels : List (List ID)) (ℓ : Nat)
      (levels' : List (List ID)),
      placeLoop cfg names v fuel start levels = some (ℓ, levels') →
      start ≤ ℓ ∧
      levelFits cfg names (levels.getD ℓ []) v = true ∧
      (∀ i, start ≤ i → i < ℓ →
        levelFits cfg names (levels.getD i []) v = false) ∧
      levels' = (levels ++ List.replicate ((ℓ + 1) - levels.length) []).set ℓ
        (levels.getD ℓ [] ++ [v]) := by
  intro fuel
  induction fuel with
  | zero =>
    intro start levels ℓ levels' h
    exact absurd h (by simp [placeLoop])
  | succ f ih =>
    intro start levels ℓ levels' h
    have hunfold : placeLoop cfg names v (f + 1) start levels =
        (if levelFits cfg names
            ((levels ++ List.replicate ((start + 1) - levels.length) []).getD
              start []) v
         then some (start,
           (levels ++ List.replicate ((start + 1) - levels.length) []).set start
             ((levels ++ List.replicate ((start + 1) - levels.length) []).getD
               start [] ++ [v]))
         else placeLoop cfg names v f (start + 1)
           (levels ++ List.replicate ((start + 1) - levels.length) [])) := rfl
    rw [hunfold, pad_getD] at h
    by_cases hfit : levelFits cfg names (levels.getD start []) v = true
    · rw [if_pos hfit] at h
      have hp : (start,
          (levels ++ List.replicate ((start + 1) - levels.length) []).set start
            (levels.getD start [] ++ [v])) = (ℓ, levels') :=
        Option.some.inj h
      have hℓ : start = ℓ := congrArg Prod.fst hp
      have hlv : (levels ++ List.replicate ((start + 1) - levels.length) []).set
          start (levels.getD start [] ++ [v]) = levels' :=
        congrArg Prod.snd hp
      subst hℓ
      refine ⟨Nat.le_refl _, hfit, ?_, hlv.symm⟩
      intro i hi1 hi2
      omega
    · rw [if_neg hfit] at h
      have hfitf : levelFits cfg names (levels.getD start []) v = false :=
        Bool.eq_false_iff.mpr hfit
      obtain ⟨h1, h2, h3, h4⟩ := ih (start + 1) _ ℓ levels' h
      rw [pad_getD] at h2
      refine ⟨by omega, h2, ?_, ?_⟩
      · intro i hi1 hi2
        by_cases hie : i = start
        · rw [hie]; exact hfitf
        · have := h3 i (by omega) hi2
          rw [pad_getD] at this
          exact this
      · rw [h4, pad_getD, pad_pad]
        omega

/-- Claim C1 as amended: the node goes to the lowest level at or above
its candidate passing the code's budget checks (strict node-count bound
and the width margin `existing width < budget - (label + 3)`), retrying
upward on overflow; and spec scenario D — edges {(0,1),(0,2)} with
`max_nodes_per_level = 1` — yields three levels of exactly one node
each. -/
theorem claim_C1_theorem :
    (∀ (cfg : Config) (names : List (ID × String)) (v : ID)
       (fuel start : Nat) (levels : List (List ID)) (ℓ : Nat)
       (levels' : List (List ID)),
      placeLoop cfg names v fuel start levels = some (ℓ, levels') →
      start ≤ ℓ ∧
      levelFits cfg names (levels.getD ℓ []) v = true ∧
      (∀ i, start ≤ i → i < ℓ →
        levelFits cfg names (levels.getD i []) v = false) ∧
      levels' = (levels ++ List.replicate ((ℓ + 1) - levels.length) []).set ℓ
        (levels.getD ℓ [] ++ [v])) ∧
    GraphLevels.construct
      (AcyclicDirectedGraph.mk graphSpill.nodes graphSpill.edges)
      (Config.new 1) namesThree 100 = some [[0], [1], [2]] :=
  ⟨fun cfg names v fuel start levels ℓ levels' h =>
    placeLoop_characterize cfg names v fuel start levels ℓ levels' h,
   by decide⟩

/-- Witness for C1 (amended): with `max_nodes_per_level = 1` and level 0
already holding node 2, node 1 spills to the new level 1, the lowest
passing level. -/
theorem claim_C1_witness :
    placeLoop (Config.new 1) namesThree 1 5 0 [[2]] = some (1, [[2], [1]]) ∧
    (0 ≤ 1 ∧
     levelFits (Config.new 1) namesThree (([[2]] : List (List ID)).getD 1 []) 1 =
       true ∧
     (∀ i, 0 ≤ i → i < 1 →
       levelFits (Config.new 1) namesThree (([[2]] : List (List ID)).getD i []) 1 =
         false) ∧
     ([[2], [1]] : List (List ID)) =
       (([[2]] : List (List ID)) ++
         List.replicate ((1 + 1) - ([[2]] : List (List ID)).length) []).set 1
         (([[2]] : List (List ID)).getD 1 [] ++ [1])) :=
  ⟨by decide,
   claim_C1_theorem.1 (Config.new 1) namesThree 1 5 0 [[2]] 1 [[2], [1]]
     (by decide)⟩

/-- Closed form of the row-assignment scan of `determine_ys`: connector
`i` is drawn at `srcY + 2` plus `1 + spacer` for every preceding
non-degenerate connector. -/
theorem determineYsRows_getElem (spacer : Nat) :
    ∀ (l : List Horizontal) (y i : Nat),
      (determineYsRows spacer y l)[i]? =
        (l[i]?).map (fun h =>
          (h, y + ((l.take i).map
            (fun h' => if nondegenerate h' then 1 + spacer else 0)).sum)) := by
  intro l
  induction l with
  | nil => intro y i; simp [determineYsRows]
  | cons h rest ih =>
    intro y i
    rw [determineYsRows]
    cases i with
    | zero => simp
    | succ j =>
      have hy : (if nondegenerate h then y + 1 + spacer else y) =
          y + (if nondegenerate h then 1 + spacer else 0) := by
        by_cases hnd : nondegenerate h
        · rw [if_pos hnd, if_pos hnd]; omega
        · rw [if_neg hnd, if_neg hnd]; omega
      rw [List.getElem?_cons_succ, hy, ih]
      rw [List.getElem?_cons_succ, List.take_succ_cons, List.map_cons,
        List.sum_cons]
      congr 1
      funext h''
      rw [Nat.add_assoc]

/-- Closed form of the `final_y` accumulation of `determine_ys`: every
non-degenerate connector except the last contributes `1 + spacer`, a
non-degenerate last connector contributes 1, degenerate connectors
contribute nothing. -/
theorem determineYsFinal_closed (srcY spacer : Nat) (horis : List Horizontal) :
    determineYsFinal srcY spacer horis =
      srcY + 4 +
      ((horis.dropLast).map
        (fun h => if nondegenerate h then 1 + spacer else 0)).sum +
      (match horis.getLast? with
       | none => 0
       | some h => if nondegenerate h then 1 else 0) := by
  cases hne : horis with
  | nil => simp [determineYsFinal]
  | cons h0 rest =>
    have hnil : horis ≠ [] := by rw [hne]; simp
    obtain ⟨l', a, hsplit⟩ : ∃ l' a, horis = l' ++ [a] :=
      ⟨horis.dropLast, horis.getLast hnil,
       (List.dropLast_append_getLast hnil).symm⟩
    rw [← hne, hsplit]
    rw [List.dropLast_concat, List.getLast?_concat]
    unfold determineYsFinal
    rw [List.enum_append]
    have henumsing : List.enumFrom l'.length [a] = [(l'.length, a)] := rfl
    rw [henumsing, List.map_append, List.sum_append]
    have hlen : (l' ++ [a]).length = l'.length + 1 := by simp
    have hmap : l'.enum.map (fun p =>
        if p.1 < (l' ++ [a]).length - 1 ∧ nondegenerate p.2 then 1 + spacer
        else if p.1 = (l' ++ [a]).length - 1 ∧ nondegenerate p.2 then 1
        else 0) =
        l'.enum.map (fun p =>
          if nondegenerate p.2 then 1 + spacer else 0) := by
      apply List.map_congr_left
      intro p hp
      have hi : l'[p.1]? = some p.2 := List.mem_enum_iff_getElem?.mp hp
      have hlt : p.1 < l'.length := by
        by_contra hge
        rw [List.getElem?_eq_none (Nat.le_of_not_lt hge)] at hi
        exact Option.noConfusion hi
      rw [hlen]
      by_cases hnd : nondegenerate p.2
      · rw [if_pos ⟨by omega, hnd⟩, if_pos hnd]
      · rw [if_neg (by intro hx; exact hnd hx.2),
          if_neg (by intro hx; exact hnd hx.2), if_neg hnd]
    have hlastterm : [(l'.length, a)].map (fun p =>
        if p.1 < (l' ++ [a]).length - 1 ∧ nondegenerate p.2 then 1 + spacer
        else if p.1 = (l' ++ [a]).length - 1 ∧ nondegenerate p.2 then 1
        else 0) = [if nondegenerate a then 1 else 0] := by
      rw [List.map_cons, List.map_nil, hlen]
      by_cases hnd : nondegenerate a
      · rw [if_neg (by intro hx; omega), if_pos ⟨by omega, hnd⟩, if_pos hnd]
      · rw [if_neg (by intro hx; exact hnd hx.2),
          if_neg (by intro hx; exact hnd hx.2), if_neg hnd]
    rw [hmap, hlastterm]
    have hsnd : l'.enum.map (fun p =>
        if nondegenerate p.2 then 1 + spacer else 0) =
        l'.map (fun h => if nondegenerate h then 1 + spacer else 0) := by
      have : (fun (p : Nat × Horizontal) =>
          if nondegenerate p.2 then 1 + spacer else 0) =
          (fun h => if nondegenerate h then 1 + spacer else 0) ∘ Prod.snd := rfl
      rw [this, ← List.map_map, List.enum_map_snd]
    rw [hsnd]
    simp
    omega

/-- Claim C8: `determine_ys` assigns the first connector the row two
below `src_y` (the sum over an empty prefix); each non-degenerate
connector pushes the following rows down by `1 + spacing`; and the gap's
final row counts `1 + spacing` per non-degenerate connector except the
last, which counts 1 when non-degenerate; degenerate connectors consume
no row. -/
theorem claim_C8_theorem (srcY spacer : Nat) (horis : List Horizontal) :
    (∀ i, (determineYs srcY horis spacer).1[i]? =
      (horis[i]?).map (fun h =>
        (h, srcY + 2 + ((horis.take i).map
          (fun h' => if nondegenerate h' then 1 + spacer else 0)).sum))) ∧
    (determineYs srcY horis spacer).2 =
      srcY + 4 +
      ((horis.dropLast).map
        (fun h => if nondegenerate h then 1 + spacer else 0)).sum +
      (match horis.getLast? with
       | none => 0
       | some h => if nondegenerate h then 1 else 0) :=
  ⟨fun i => determineYsRows_getElem spacer horis (srcY + 2) i,
   determineYsFinal_closed srcY spacer horis⟩

theorem containsD_iff {α : Type} [DecidableEq α] (l : List α) (x : α) :
    containsD l x = true ↔ x ∈ l := by
  unfold containsD
  rw [List.any_eq_true]
  constructor
  · rintro ⟨y, hy, hxy⟩
    rw [of_decide_eq_true hxy]
    exact hy
  · intro hx
    exact ⟨x, hx, by simp⟩

theorem mem_sinsert {α : Type} [DecidableEq α] (s : List α) (x y : α) :
    y ∈ sinsert s x ↔ y ∈ s ∨ y = x := by
  unfold sinsert
  by_cases h : containsD s x = true
  · rw [if_pos h]
    constructor
    · exact Or.inl
    · rintro (hy | hy)
      · exact hy
      · rw [hy]; exact (containsD_iff s x).mp h
  · rw [if_neg h]
    rw [List.mem_append, List.mem_singleton]

theorem mem_sfromList {α : Type} [DecidableEq α] (l : List α) (x : α) :
    x ∈ sfromList l ↔ x ∈ l := by
  have key : ∀ (l acc : List α), x ∈ l.foldl sinsert acc ↔ x ∈ acc ∨ x ∈ l := by
    intro l
    induction l with
    | nil => intro acc; simp
    | cons a rest ih =>
      intro acc
      rw [List.foldl_cons, ih, mem_sinsert]
      constructor
      · rintro ((h | h) | h)
        · exact Or.inl h
        · exact Or.inr (by rw [h]; exact List.mem_cons_self _ _)
        · exact Or.inr (List.mem_cons_of_mem _ h)
      · rintro (h | h)
        · exact Or.inl (Or.inl h)
        · rcases List.mem_cons.mp h with h | h
          · exact Or.inl (Or.inr h)
          · exact Or.inr h
  rw [sfromList, key]
  simp

theorem alookup_append {β : Type} (R S : List (ID × β)) (k : ID) :
    alookup (R ++ S) k =
      (alookup R k).or (alookup S k) := by
  unfold alookup
  rw [List.find?_append]
  cases h : R.find? (fun p => decide (p.1 = k)) with
  | none => simp
  | some p => simp

theorem alookup_append_left {β : Type} (R S : List (ID × β)) (k : ID)
    (h : acontains R k = true) : alookup (R ++ S) k = alookup R k := by
  rw [alookup_append]
  unfold acontains at h
  cases hl : alookup R k with
  | none => rw [hl] at h; simp at h
  | some v => simp

theorem acontains_append_left {β : Type} (R S : List (ID × β)) (k : ID)
    (h : acontains R k = true) : acontains (R ++ S) k = true := by
  unfold acontains at h ⊢
  rw [alookup_append_left R S k h]
  exact h

theorem alookup_eq_some_getElem {β : Type} (m : List (ID × β)) (k : ID)
    (val : β) (h : alookup m k = some val) :
    ∃ j, j < m.length ∧ m[j]? = some (k, val) := by
  induction m with
  | nil => simp [alookup] at h
  | cons p rest ih =>
    by_cases hk : p.1 = k
    · have : alookup (p :: rest) k = some p.2 := by
        unfold alookup
        rw [List.find?_cons_of_pos _ (by simp [hk])]
        rfl
      rw [this] at h
      refine ⟨0, by simp, ?_⟩
      have hv : p.2 = val := Option.some.inj h
      rw [List.getElem?_cons_zero]
      rw [← hk, ← hv]
    · have : alookup (p :: rest) k = alookup rest k := by
        unfold alookup
        rw [List.find?_cons_of_neg _ (by simp [hk])]
      rw [this] at h
      obtain ⟨j, hj, hget⟩ := ih h
      exact ⟨j + 1, by simp; omega, by rw [List.getElem?_cons_succ]; exact hget⟩

theorem reaches_cases (e : List (ID × List ID)) (u v : ID)
    (h : Reaches e u v) :
    v ∈ succsE e u ∨ ∃ w, w ∈ succsE e u ∧ Reaches e w v := by
  cases h with
  | single h => exact Or.inl h
  | head h h2 => exact Or.inr ⟨_, h, h2⟩

theorem reaches_mono (e1 e2 : List (ID × List ID))
    (hsub : ∀ u x, x ∈ succsE e1 u → x ∈ succsE e2 u) (u v : ID)
    (h : Reaches e1 u v) : Reaches e2 u v := by
  induction h with
  | single h => exact Reaches.single (hsub _ _ h)
  | head h _ ih => exact Reaches.head (hsub _ _ h) ih

theorem reachInv_append (edges R : List (ID × List ID))
    (hInv : ReachInv edges R) (id : ID) (val : List ID)
    (hcond : ∀ s ∈ succsE edges id, acontains R s = true)
    (hval : val = sfromList ((succsE edges id).flatMap
      (fun s => (alookup R s).getD []) ++ succsE edges id)) :
    ReachInv edges (R ++ [(id, val)]) := by
  unfold ReachInv
  intro i p hp
  by_cases hi : i < R.length
  · have hget : (R ++ [(id, val)])[i]? = R[i]? := by
      rw [List.getElem?_append, if_pos hi]
    rw [hget] at hp
    have htake : (R ++ [(id, val)]).take i = R.take i :=
      List.take_append_of_le_length (by omega)
    rw [htake]
    exact hInv i p hp
  · have hi2 : i = R.length := by
      by_contra hne
      have : R.length + 1 ≤ i := by omega
      rw [List.getElem?_eq_none (by simp; omega)] at hp
      exact Option.noConfusion hp
    subst hi2
    have hget : (R ++ [(id, val)])[R.length]? = some (id, val) :=
      List.getElem?_concat_length _ _
    rw [hget] at hp
    have hp2 : p = (id, val) := (Option.some.inj hp).symm
    subst hp2
    have htake : (R ++ [(id, val)]).take R.length = R :=
      List.take_left R _
    rw [htake]
    exact ⟨hcond, hval⟩

theorem reachAux_prefix (edges : List (ID × List ID)) :
    ∀ (fuel : Nat) (st R R' : List _),
      reachAux edges fuel st R = some R' → ∃ S, R' = R ++ S := by
  intro fuel
  induction fuel with
  | zero => intro st R R' h; exact absurd h (by simp [reachAux])
  | succ f ih =>
    intro st R R' h
    cases st with
    | nil =>
      refine ⟨[], ?_⟩
      have : R = R' := Option.some.inj h
      rw [← this, List.append_nil]
    | cons id rest =>
      rw [reachAux] at h
      by_cases h1 : acontains R id = true
      · rw [if_pos h1] at h
        exact ih rest R R' h
      · rw [if_neg h1] at h
        cases halk : alookup edges id with
        | none =>
          rw [halk] at h
          simp only [] at h
          obtain ⟨S, hS⟩ := ih rest (R ++ [(id, [])]) R' h
          exact ⟨[(id, [])] ++ S, by rw [hS, List.append_assoc]⟩
        | some succs =>
          rw [halk] at h
          simp only [] at h
          by_cases h2 : succs.isEmpty = true
          · rw [if_pos h2] at h
            obtain ⟨S, hS⟩ := ih rest (R ++ [(id, [])]) R' h
            exact ⟨[(id, [])] ++ S, by rw [hS, List.append_assoc]⟩
          · rw [if_neg h2] at h
            by_cases h3 : succs.all (fun s => acontains R s) = true
            · rw [if_pos h3] at h
              obtain ⟨S, hS⟩ := ih rest _ R' h
              rw [List.append_assoc] at hS
              exact ⟨_, hS⟩
            · rw [if_neg h3] at h
              exact ih _ R R' h

theorem reachAux_inv (edges : List (ID × List ID)) :
    ∀ (fuel : Nat) (st R R' : List _),
      ReachInv edges R → reachAux edges fuel st R = some R' →
      ReachInv edges R' := by
  intro fuel
  induction fuel with
  | zero => intro st R R' _ h; exact absurd h (by simp [reachAux])
  | succ f ih =>
    intro st R R' hInv h
    cases st with
    | nil =>
      have : R = R' := Option.some.inj h
      rw [← this]; exact hInv
    | cons id rest =>
      rw [reachAux] at h
      by_cases h1 : acontains R id = true
      · rw [if_pos h1] at h
        exact ih rest R R' hInv h
      · rw [if_neg h1] at h
        cases halk : alookup edges id with
        | none =>
          rw [halk] at h
          simp only [] at h
          refine ih rest _ R' (reachInv_append edges R hInv id [] ?_ ?_) h
          · intro s hs
            unfold succsE at hs
            rw [halk] at hs
            simp at hs
          · unfold succsE
            rw [halk]
            rfl
        | some succs =>
          rw [halk] at h
          simp only [] at h
          by_cases h2 : succs.isEmpty = true
          · rw [if_pos h2] at h
            have hnil : succs = [] := List.isEmpty_iff.mp h2
            refine ih rest _ R' (reachInv_append edges R hInv id [] ?_ ?_) h
            · intro s hs
              unfold succsE at hs
              rw [halk, hnil] at hs
              simp at hs
            · unfold succsE
              rw [halk, hnil]
              rfl
          · rw [if_neg h2] at h
            by_cases h3 : succs.all (fun s => acontains R s) = true
            · rw [if_pos h3] at h
              refine ih rest _ R' (reachInv_append edges R hInv id _ ?_ ?_) h
              · intro s hs
                unfold succsE at hs
                rw [halk] at hs
                exact List.all_eq_true.mp h3 s hs
              · unfold succsE
                rw [halk]
                rfl
            · rw [if_neg h3] at h
              exact ih _ R R' hInv h

theorem alookup_append_right' {β : Type} (R S : List (ID × β)) (k : ID)
    (h : ¬ acontains R k = true) : alookup (R ++ S) k = alookup S k := by
  rw [alookup_append]
  unfold acontains at h
  cases hl : alookup R k with
  | none => simp
  | some v => rw [hl] at h; simp at h

theorem reachAux_covers (edges : List (ID × List ID)) :
    ∀ (fuel : Nat) (st R R' : List _),
      reachAux edges fuel st R = some R' →
      ∀ x ∈ st, acontains R' x = true := by
  intro fuel
  induction fuel with
  | zero => intro st R R' h; exact absurd h (by simp [reachAux])
  | succ f ih =>
    intro st R R' h
    cases st with
    | nil => intro x hx; simp at hx
    | cons id rest =>
      rw [reachAux] at h
      by_cases h1 : acontains R id = true
      · rw [if_pos h1] at h
        intro x hx
        rcases List.mem_cons.mp hx with hx | hx
        · obtain ⟨S, hS⟩ := reachAux_prefix edges f rest R R' h
          rw [hS, hx]
          exact acontains_append_left R S id h1
        · exact ih rest R R' h x hx
      · rw [if_neg h1] at h
        have handle : ∀ (val : List ID),
            reachAux edges f rest (R ++ [(id, val)]) = some R' →
            ∀ x ∈ id :: rest, acontains R' x = true := by
          intro val hrec x hx
          rcases List.mem_cons.mp hx with hx | hx
          · obtain ⟨S, hS⟩ :=
              reachAux_prefix edges f rest (R ++ [(id, val)]) R' hrec
            rw [hS, hx]
            apply acontains_append_left
            have hfound : alookup (R ++ [(id, val)]) id = some val := by
              rw [alookup_append_right' R _ id h1]
              simp [alookup]
            unfold acontains
            rw [hfound]
            rfl
          · exact ih rest _ R' hrec x hx
        cases halk : alookup edges id with
        | none =>
          rw [halk] at h
          simp only [] at h
          exact handle [] h
        | some succs =>
          rw [halk] at h
          simp only [] at h
          by_cases h2 : succs.isEmpty = true
          · rw [if_pos h2] at h
            exact handle [] h
          · rw [if_neg h2] at h
            by_cases h3 : succs.all (fun s => acontains R s) = true
            · rw [if_pos h3] at h
              exact handle _ h
            · rw [if_neg h3] at h
              intro x hx
              exact ih _ R R' h x
                (by rw [List.mem_append]; exact Or.inr hx)

theorem reachInv_correct (edges R : List (ID × List ID))
    (hInv : ReachInv edges R) :
    ∀ (i : Nat) (p : ID × List ID),
      R[i]? = some p → ∀ v, v ∈ p.2 ↔ Reaches edges p.1 v := by
  intro i
  induction i using Nat.strong_induction_on with
  | _ i ih =>
    intro p hp v
    obtain ⟨hcond, hval⟩ := hInv i p hp
    have hstep : ∀ j T w, j < i → R[j]? = some (w, T) → ∀ x, x ∈ T ↔ Reaches edges w x := by
      intro j T w hj hget x
      exact ih j hj (w, T) hget x
    constructor
    · intro hv
      rw [hval, mem_sfromList, List.mem_append] at hv
      rcases hv with hv | hv
      · rw [List.mem_flatMap] at hv
        obtain ⟨s, hs, hvs⟩ := hv
        cases hlk : alookup (R.take i) s with
        | none => rw [hlk] at hvs; simp at hvs
        | some T =>
          rw [hlk] at hvs
          simp only [Option.getD_some] at hvs
          obtain ⟨j, hjlen, hj⟩ := alookup_eq_some_getElem _ s T hlk
          have hjlt : j < i := by
            have := List.length_take_le i R
            omega
          have hRj : R[j]? = some (s, T) := by
            rw [← List.getElem?_take_of_lt hjlt]
            exact hj
          exact Reaches.head hs ((hstep j T s hjlt hRj v).mp hvs)
      · exact Reaches.single hv
    · intro hr
      rcases reaches_cases edges p.1 v hr with hv | ⟨w, hw, hwv⟩
      · rw [hval, mem_sfromList, List.mem_append]
        exact Or.inr hv
      · have hcw := hcond w hw
        unfold acontains at hcw
        cases hlk : alookup (R.take i) w with
        | none => rw [hlk] at hcw; simp at hcw
        | some T =>
          obtain ⟨j, hjlen, hj⟩ := alookup_eq_some_getElem _ w T hlk
          have hjlt : j < i := by
            have := List.length_take_le i R
            omega
          have hRj : R[j]? = some (w, T) := by
            rw [← List.getElem?_take_of_lt hjlt]
            exact hj
          have hvT : v ∈ T := (hstep j T w hjlt hRj v).mpr hwv
          rw [hval, mem_sfromList, List.mem_append]
          left
          rw [List.mem_flatMap]
          exact ⟨w, hw, by rw [hlk]; exact hvT⟩

theorem computeReachable_props (nodes : List (ID × String))
    (edges : List (ID × List ID)) (fuel : Nat)
    (R : List (ID × List ID))
    (h : computeReachable nodes edges fuel = some R) :
    ReachInv edges R ∧ ∀ p ∈ nodes, acontains R p.1 = true := by
  have key : ∀ (ns : List (ID × String)) (R0 : List (ID × List ID)),
      ReachInv edges R0 →
      ns.foldlM (fun reachable p =>
        if acontains reachable p.1 then some reachable
        else reachAux edges fuel [p.1] reachable) R0 = some R →
      ReachInv edges R ∧ (∀ p ∈ ns, acontains R p.1 = true) ∧
        ∃ S, R = R0 ++ S := by
    intro ns
    induction ns with
    | nil =>
      intro R0 hInv hfold
      have : R0 = R := Option.some.inj hfold
      subst this
      exact ⟨hInv, by intro p hp; simp at hp, [], by simp⟩
    | cons p rest ih =>
      intro R0 hInv hfold
      rw [List.foldlM_cons] at hfold
      by_cases hc : acontains R0 p.1 = true
      · rw [if_pos hc] at hfold
        simp only [Option.bind_eq_bind, Option.some_bind] at hfold
        obtain ⟨hI, hcov, S, hS⟩ := ih R0 hInv hfold
        refine ⟨hI, ?_, S, hS⟩
        intro q hq
        rcases List.mem_cons.mp hq with hq | hq
        · rw [hq, hS]
          exact acontains_append_left _ _ _ hc
        · exact hcov q hq
      · rw [if_neg hc] at hfold
        cases hra : reachAux edges fuel [p.1] R0 with
        | none =>
          rw [hra] at hfold
          simp at hfold
        | some R1 =>
          rw [hra] at hfold
          simp only [Option.bind_eq_bind, Option.some_bind] at hfold
          have hI1 : ReachInv edges R1 := reachAux_inv edges fuel _ R0 R1 hInv hra
          obtain ⟨hI, hcov, S, hS⟩ := ih R1 hI1 hfold
          refine ⟨hI, ?_, ?_⟩
          · intro q hq
            rcases List.mem_cons.mp hq with hq | hq
            · rw [hq, hS]
              exact acontains_append_left _ _ _
                (reachAux_covers edges fuel [p.1] R0 R1 hra p.1
                  (List.mem_singleton.mpr rfl))
            · exact hcov q hq
          · obtain ⟨S1, hS1⟩ := reachAux_prefix edges fuel [p.1] R0 R1 hra
            exact ⟨S1 ++ S, by rw [hS, hS1, List.append_assoc]⟩
  have hemp : ReachInv edges [] := by
    unfold ReachInv
    intro i pr hp
    simp at hp
  obtain ⟨hI, hcov, _⟩ := key nodes [] hemp h
  exact ⟨hI, hcov⟩

theorem computeReachable_correct (nodes : List (ID × String))
    (edges : List (ID × List ID)) (fuel : Nat) (R : List (ID × List ID))
    (h : computeReachable nodes edges fuel = some R) :
    ∀ u T, alookup R u = some T → ∀ v, (v ∈ T ↔ Reaches edges u v) := by
  intro u T hT v
  obtain ⟨hI, _⟩ := computeReachable_props nodes edges fuel R h
  obtain ⟨j, hjlen, hj⟩ := alookup_eq_some_getElem R u T hT
  exact reachInv_correct edges R hI j (u, T) hj v

theorem collect_fold_spec (R : List (ID × List ID)) :
    ∀ (eds acc r : List ID),
      eds.foldlM (fun acc2 sid => (alookup R sid).map (fun r => acc2 ++ r)) acc =
        some r →
      r = acc ++ eds.flatMap (fun s => (alookup R s).getD []) ∧
      ∀ s ∈ eds, acontains R s = true := by
  intro eds
  induction eds with
  | nil =>
    intro acc r h
    have : acc = r := Option.some.inj h
    subst this
    exact ⟨by simp, by intro s hs; simp at hs⟩
  | cons s rest ih =>
    intro acc r h
    rw [List.foldlM_cons] at h
    cases hlk : alookup R s with
    | none =>
      rw [hlk] at h
      simp at h
    | some T =>
      rw [hlk] at h
      simp only [Option.map_some', Option.bind_eq_bind, Option.some_bind] at h
      obtain ⟨hr, hcov⟩ := ih (acc ++ T) r h
      constructor
      · rw [hr, List.flatMap_cons, hlk]
        simp [List.append_assoc]
      · intro x hx
        rcases List.mem_cons.mp hx with hx | hx
        · rw [hx]
          unfold acontains
          rw [hlk]
          rfl
        · exact hcov x hx

theorem removeEdges_fold_spec (gE : List (ID × List ID))
    (R : List (ID × List ID)) :
    ∀ (ns : List (ID × String)) (acc out : List (ID × List ID)),
      ns.foldlM (fun acc p =>
        let node := p.1
        let eds := (alookup gE node).getD []
        match eds.foldlM
            (fun acc2 sid => (alookup R sid).map (fun r => acc2 ++ r)) [] with
        | none => none
        | some succReachsRaw =>
          let succReachs := sfromList succReachsRaw
          let uniqueEdges := sfromList (eds.filter (fun v => ¬ containsD succReachs v))
          let remove := sfromList (eds.filter (fun v => ¬ containsD uniqueEdges v))
          some (acc ++ [(node, remove)])) acc = some out →
      out = acc ++ ns.map (fun p => (p.1, rmValue gE R p.1)) ∧
      ∀ p ∈ ns, ∀ s ∈ succsE gE p.1, acontains R s = true := by
  intro ns
  induction ns with
  | nil =>
    intro acc out h
    have : acc = out := Option.some.inj h
    subst this
    exact ⟨by simp, by intro p hp; simp at hp⟩
  | cons p rest ih =>
    intro acc out h
    rw [List.foldlM_cons] at h
    simp only [] at h
    cases hcf : List.foldlM
        (fun acc2 sid => (alookup R sid).map (fun r => acc2 ++ r)) []
        ((alookup gE p.1).getD []) with
    | none =>
      rw [hcf] at h
      simp at h
    | some raw =>
      rw [hcf] at h
      simp only [Option.bind_eq_bind, Option.some_bind] at h
      obtain ⟨hraw, hcovp⟩ := collect_fold_spec R _ [] raw hcf
      rw [List.nil_append] at hraw
      obtain ⟨hout, hcov⟩ := ih _ out h
      constructor
      · rw [hout, List.map_cons, hraw]
        rw [List.append_assoc]
        rfl
      · intro q hq
        rcases List.mem_cons.mp hq with hq | hq
        · rw [hq]
          exact hcovp
        · exact hcov q hq

theorem alookup_map_pairfn {β γ : Type} (f : ID → β → γ) :
    ∀ (l : List (ID × β)) (k : ID),
      alookup (l.map (fun p => (p.1, f p.1 p.2))) k =
        (alookup l k).map (fun v => f k v) := by
  intro l
  induction l with
  | nil => intro k; rfl
  | cons p rest ih =>
    intro k
    by_cases hk : p.1 = k
    · unfold alookup
      rw [List.map_cons, List.find?_cons_of_pos _ (by simp [hk]),
        List.find?_cons_of_pos _ (by simp [hk])]
      simp [hk]
    · unfold alookup
      rw [List.map_cons, List.find?_cons_of_neg _ (by simp [hk]),
        List.find?_cons_of_neg _ (by simp [hk])]
      exact ih k

theorem nEdges_fold_spec (RE : List (ID × List ID)) :
    ∀ (l : List (ID × List ID)) (acc out : List (ID × List ID)),
      l.foldlM (fun acc p =>
        match alookup RE p.1 with
        | none => none
        | some filt =>
          some (acc ++ [(p.1, p.2.filter (fun t => ¬ containsD filt t))])) acc =
        some out →
      out = acc ++ l.map (fun p =>
        (p.1, p.2.filter (fun t => ¬ containsD ((alookup RE p.1).getD []) t))) ∧
      ∀ p ∈ l, acontains RE p.1 = true := by
  intro l
  induction l with
  | nil =>
    intro acc out h
    have : acc = out := Option.some.inj h
    subst this
    exact ⟨by simp, by intro p hp; simp at hp⟩
  | cons p rest ih =>
    intro acc out h
    rw [List.foldlM_cons] at h
    cases hlk : alookup RE p.1 with
    | none =>
      rw [hlk] at h
      simp at h
    | some filt =>
      rw [hlk] at h
      simp only [Option.bind_eq_bind, Option.some_bind] at h
      obtain ⟨hout, hcov⟩ := ih _ out h
      constructor
      · rw [hout, List.map_cons, hlk]
        rw [List.append_assoc]
        rfl
      · intro q hq
        rcases List.mem_cons.mp hq with hq | hq
        · rw [hq]
          unfold acontains
          rw [hlk]
          rfl
        · exact hcov q hq


theorem alookup_mem {β : Type} (m : List (ID × β)) (k : ID) (val : β)
    (h : alookup m k = some val) : (k, val) ∈ m := by
  obtain ⟨j, hjlen, hget⟩ := alookup_eq_some_getElem m k val h
  exact List.getElem?_mem hget

theorem acontains_some {β : Type} (m : List (ID × β)) (k : ID)
    (h : acontains m k = true) : ∃ v, alookup m k = some v := by
  unfold acontains at h
  exact Option.isSome_iff_exists.mp h

theorem mem_rmValue (gE R : List (ID × List ID)) (n v : ID) :
    v ∈ rmValue gE R n ↔
      v ∈ succsE gE n ∧ ∃ s ∈ succsE gE n, v ∈ (alookup R s).getD [] := by
  simp only [rmValue, mem_sfromList, List.mem_filter, decide_eq_true_eq,
    containsD_iff, List.mem_flatMap]
  constructor
  · rintro ⟨hv, hn⟩
    refine ⟨hv, ?_⟩
    by_contra hne
    exact hn ⟨hv, hne⟩
  · rintro ⟨hv, hex⟩
    exact ⟨hv, fun hc => hc.2 hex⟩

theorem transitiveReduction_edge_iff (g : AcyclicDirectedGraph) (fuel : Nat)
    (red : MinimalAcyclicDirectedGraph)
    (h : g.transitiveReduction fuel = some red) :
    red.inner.nodes = g.nodes ∧
    ∀ u v, edgeIn red.inner.edges u v ↔
      (edgeIn g.edges u v ∧
        ¬ ∃ w, edgeIn g.edges u w ∧ Reaches g.edges w v) := by
  simp only [AcyclicDirectedGraph.transitiveReduction] at h
  cases hR : computeReachable g.nodes g.edges fuel with
  | none => rw [hR] at h; simp at h
  | some R =>
    rw [hR] at h
    simp only [] at h
    cases hRE : g.nodes.foldlM (fun acc p =>
        let node := p.1
        let eds := (alookup g.edges node).getD []
        match eds.foldlM
            (fun acc2 sid => (alookup R sid).map (fun r => acc2 ++ r)) [] with
        | none => none
        | some succReachsRaw =>
          let succReachs := sfromList succReachsRaw
          let uniqueEdges := sfromList (eds.filter (fun v => ¬ containsD succReachs v))
          let remove := sfromList (eds.filter (fun v => ¬ containsD uniqueEdges v))
          some (acc ++ [(node, remove)])) [] with
    | none => rw [hRE] at h; simp at h
    | some RE =>
      rw [hRE] at h
      simp only [] at h
      cases hNE : g.edges.foldlM (fun acc p =>
          match alookup RE p.1 with
          | none => none
          | some filt =>
            some (acc ++ [(p.1, p.2.filter (fun t => ¬ containsD filt t))])) [] with
      | none => rw [hNE] at h; simp at h
      | some NE =>
        rw [hNE] at h
        simp only [] at h
        have hred : red = ⟨⟨g.nodes, NE⟩⟩ := (Option.some.inj h).symm
        subst hred
        obtain ⟨hREval, hcovN⟩ := removeEdges_fold_spec g.edges R g.nodes [] RE hRE
        rw [List.nil_append] at hREval
        obtain ⟨hNEval, hcovE⟩ := nEdges_fold_spec RE g.edges [] NE hNE
        rw [List.nil_append] at hNEval
        have hmapNE : ∀ k, alookup NE k =
            (alookup g.edges k).map (fun val =>
              val.filter (fun t => ¬ containsD ((alookup RE k).getD []) t)) := by
          intro k
          rw [hNEval]
          exact alookup_map_pairfn
            (fun k val => val.filter
              (fun t => ¬ containsD ((alookup RE k).getD []) t)) g.edges k
        have hmapRE : ∀ k, alookup RE k =
            (alookup g.nodes k).map (fun x => rmValue g.edges R k) := by
          intro k
          rw [hREval]
          exact alookup_map_pairfn (fun k x => rmValue g.edges R k) g.nodes k
        refine ⟨rfl, ?_⟩
        intro u v
        cases hval : alookup g.edges u with
        | none =>
          constructor
          · intro hin
            exfalso
            unfold edgeIn at hin
            rw [hmapNE u, hval] at hin
            simp at hin
          · rintro ⟨hin, h2⟩
            exfalso
            unfold edgeIn at hin
            rw [hval] at hin
            simp at hin
        | some val =>
          have hmem : (u, val) ∈ g.edges := alookup_mem g.edges u val hval
          have hREu : acontains RE u = true := hcovE (u, val) hmem
          obtain ⟨W, hW⟩ := acontains_some RE u hREu
          have hnodesu : ∃ nm, alookup g.nodes u = some nm := by
            have hm := hmapRE u
            rw [hW] at hm
            cases hnn : alookup g.nodes u with
            | none => rw [hnn] at hm; simp at hm
            | some nm => exact ⟨nm, rfl⟩
          obtain ⟨nm, hnm⟩ := hnodesu
          have hWval : W = rmValue g.edges R u := by
            have hm := hmapRE u
            rw [hW, hnm] at hm
            simpa using hm
          have hmemN : (u, nm) ∈ g.nodes := alookup_mem g.nodes u nm hnm
          have hcovu : ∀ s ∈ succsE g.edges u, acontains R s = true :=
            hcovN (u, nm) hmemN
          have hRcorrect := computeReachable_correct g.nodes g.edges fuel R hR
          have hsuccs : succsE g.edges u = val := by
            unfold succsE
            rw [hval]
            rfl
          have hreach : ∀ s ∈ val, ∀ x,
              x ∈ (alookup R s).getD [] ↔ Reaches g.edges s x := by
            intro s hs x
            have hcs : acontains R s = true := by
              apply hcovu s
              rw [hsuccs]
              exact hs
            obtain ⟨T, hT⟩ := acontains_some R s hcs
            rw [hT]
            simpa using hRcorrect s T hT x
          constructor
          · intro hin
            unfold edgeIn at hin
            rw [hmapNE u, hval] at hin
            simp only [Option.map_some', Option.getD_some, List.mem_filter,
              decide_eq_true_eq] at hin
            obtain ⟨hvval, hnc⟩ := hin
            constructor
            · unfold edgeIn
              rw [hval]
              exact hvval
            · rintro ⟨w, hw, hwv⟩
              apply hnc
              rw [hW]
              simp only [Option.getD_some, hWval]
              rw [containsD_iff, mem_rmValue]
              unfold edgeIn at hw
              rw [hval] at hw
              simp only [Option.getD_some] at hw
              refine ⟨by rw [hsuccs]; exact hvval, w, by rw [hsuccs]; exact hw, ?_⟩
              exact (hreach w hw v).mpr hwv
          · rintro ⟨hin, hnp⟩
            unfold edgeIn at hin ⊢
            rw [hval] at hin
            simp only [Option.getD_some] at hin
            rw [hmapNE u, hval]
            simp only [Option.map_some', Option.getD_some, List.mem_filter,
              decide_eq_true_eq]
            refine ⟨hin, ?_⟩
            intro hc
            rw [hW] at hc
            simp only [Option.getD_some, hWval] at hc
            rw [containsD_iff, mem_rmValue] at hc
            obtain ⟨h1, s, hs, hsv⟩ := hc
            rw [hsuccs] at hs
            apply hnp
            refine ⟨s, ?_, (hreach s hs v).mp hsv⟩
            unfold edgeIn
            rw [hval]
            simpa using hs

theorem fold_max_init (l : List Nat) : ∀ acc, acc ≤ l.foldl max acc := by
  induction l with
  | nil => intro acc; exact Nat.le_refl _
  | cons b t ih =>
    intro acc
    exact Nat.le_trans (Nat.le_max_left acc b) (ih (max acc b))

theorem fold_max_mem (l : List Nat) (x : Nat) :
    ∀ acc, x ∈ l → x ≤ l.foldl max acc := by
  induction l with
  | nil => intro acc hx; simp at hx
  | cons b t ih =>
    intro acc hx
    rcases List.mem_cons.mp hx with hx | hx
    · subst hx
      exact Nat.le_trans (Nat.le_max_right acc x) (fold_max_init t (max acc x))
    · exact ih (max acc b) hx

theorem maxq_mem_le (l : List Nat) (x : Nat) (hx : x ∈ l) :
    ∃ m, l.max? = some m ∧ x ≤ m := by
  cases l with
  | nil => simp at hx
  | cons a t =>
    refine ⟨t.foldl max a, rfl, ?_⟩
    rcases List.mem_cons.mp hx with hx | hx
    · subst hx
      exact fold_max_init t x
    · exact fold_max_mem t x a hx

theorem alookup_aupsert_self {β : Type} (m : List (ID × β)) (k : ID) (v : β) :
    alookup (aupsert m k v) k = some v := by
  induction m with
  | nil =>
    unfold aupsert alookup
    rw [List.find?_cons_of_pos _ (by simp)]
    rfl
  | cons p rest ih =>
    obtain ⟨a, b⟩ := p
    unfold aupsert
    by_cases h : a = k
    · rw [if_pos h]
      unfold alookup
      rw [List.find?_cons_of_pos _ (by simp)]
      rfl
    · rw [if_neg h]
      unfold alookup
      rw [List.find?_cons_of_neg _ (by simp [h])]
      exact ih

theorem alookup_aupsert_other {β : Type} (m : List (ID × β)) (k q : ID) (v : β)
    (h : q ≠ k) : alookup (aupsert m k v) q = alookup m q := by
  induction m with
  | nil =>
    unfold aupsert alookup
    rw [List.find?_cons_of_neg _ (by simp; exact fun hh => absurd hh.symm h)]
  | cons p rest ih =>
    obtain ⟨a, b⟩ := p
    unfold aupsert
    by_cases hk : a = k
    · rw [if_pos hk]
      unfold alookup
      rw [List.find?_cons_of_neg _ (by simp; exact fun hh => absurd hh.symm h),
        List.find?_cons_of_neg _
          (by simp; exact fun hh => absurd ((hk.symm.trans hh).symm) h)]
    · rw [if_neg hk]
      by_cases hq : a = q
      · unfold alookup
        rw [List.find?_cons_of_pos _ (by simp [hq]),
          List.find?_cons_of_pos _ (by simp [hq])]
      · unfold alookup
        rw [List.find?_cons_of_neg _ (by simp [hq]),
          List.find?_cons_of_neg _ (by simp [hq])]
        exact ih

theorem pad_set_getD (l : List (List ID)) (k i : Nat) (x : List ID) :
    ((l ++ List.replicate ((k + 1) - l.length) ([] : List ID)).set k x).getD
        i [] =
      if i = k then x else l.getD i [] := by
  by_cases h : i = k
  · subst h
    rw [if_pos rfl, List.getD_eq_getElem?_getD,
      List.getElem?_set_self (by rw [List.length_append, List.length_replicate]; omega)]
    rfl
  · rw [if_neg h, List.getD_eq_getElem?_getD,
      List.getElem?_set_ne (fun hh => h hh.symm), ← List.getD_eq_getElem?_getD,
      pad_getD]

theorem getD_mem_lt (l : List (List ID)) (i : Nat) (x : ID)
    (h : x ∈ l.getD i []) : i < l.length := by
  by_contra hge
  rw [List.getD_eq_getElem?_getD,
    List.getElem?_eq_none (Nat.le_of_not_lt hge)] at h
  simp at h

/-- Invariant of the placement fold of `distribute_nodes`: walking the
reversed ordering, the vertex-level map records exactly the processed
nodes, each recorded level really holds its node and vice versa, and
every already-placed edge points strictly upward in the bottom-up level
indexing. -/
theorem distribute_fold_inv (graph : MinimalAcyclicDirectedGraph)
    (cfg : Config) (names : List (ID × String)) (rev : List ID)
    (hnd : rev.Nodup)
    (hord : ∀ a b, edgeIn graph.inner.edges a b → ∀ (i j : Nat),
      rev[i]? = some a → rev[j]? = some b → j < i) :
    ∀ (rest P : List ID) (st st' : List (List ID) × List (ID × Nat)),
      rev = P ++ rest →
      (∀ x, acontains st.2 x = true ↔ x ∈ P) →
      (∀ x ℓ, alookup st.2 x = some ℓ → x ∈ st.1.getD ℓ []) →
      (∀ i x, x ∈ st.1.getD i [] → alookup st.2 x = some i) →
      (∀ a b, edgeIn graph.inner.edges a b → ∀ ℓa ℓb,
        alookup st.2 a = some ℓa → alookup st.2 b = some ℓb → ℓb < ℓa) →
      rest.foldlM (fun (st : List (List ID) × List (ID × Nat)) v =>
        let levels := st.1
        let vertexLevels := st.2
        let init := initialLevel graph vertexLevels v
        match placeLoop cfg names v (usizeMax - init) init levels with
        | none => none
        | some (vLevel, levels') =>
          some (levels', aupsert vertexLevels v vLevel)) st = some st' →
      (∀ x, acontains st'.2 x = true ↔ x ∈ rev) ∧
      (∀ x ℓ, alookup st'.2 x = some ℓ → x ∈ st'.1.getD ℓ []) ∧
      (∀ i x, x ∈ st'.1.getD i [] → alookup st'.2 x = some i) ∧
      (∀ a b, edgeIn graph.inner.edges a b → ∀ ℓa ℓb,
        alookup st'.2 a = some ℓa → alookup st'.2 b = some ℓb → ℓb < ℓa) := by
  intro rest
  induction rest with
  | nil =>
    intro P st st' hPr hA hB hC hD h
    have hst : st = st' := Option.some.inj h
    subst hst
    refine ⟨?_, hB, hC, hD⟩
    intro x
    rw [hA x, hPr, List.append_nil]
  | cons v rest' ih =>
    intro P st st' hPr hA hB hC hD h
    rw [List.foldlM_cons] at h
    simp only [] at h
    cases hpl : placeLoop cfg names v
        (usizeMax - initialLevel graph st.2 v)
        (initialLevel graph st.2 v) st.1 with
    | none => rw [hpl] at h; simp at h
    | some pr =>
      obtain ⟨vLevel, levels'⟩ := pr
      rw [hpl] at h
      simp only [Option.bind_eq_bind, Option.some_bind] at h
      obtain ⟨hge, hfits, hbelow, hset⟩ :=
        placeLoop_characterize cfg names v _ _ _ _ _ hpl
      have hvP : v ∉ P := by
        have hnd2 := hnd
        rw [hPr] at hnd2
        intro hmem
        exact (List.nodup_append.mp hnd2).2.2 hmem (List.mem_cons_self v rest')
      have hkey : ∀ x ℓ, alookup st.2 x = some ℓ → x ∈ P := by
        intro x ℓ hxl
        rw [← hA x]
        unfold acontains
        rw [hxl]
        rfl
      have hvpos : rev[P.length]? = some v := by
        rw [hPr, List.getElem?_append_right (Nat.le_refl _)]
        simp
      have hPpos : ∀ a, a ∈ P → ∃ i, i < P.length ∧ rev[i]? = some a := by
        intro a ha
        obtain ⟨i, hi⟩ := List.mem_iff_getElem?.mp ha
        have hilt : i < P.length := by
          by_contra hge2
          rw [List.getElem?_eq_none (Nat.le_of_not_lt hge2)] at hi
          exact Option.noConfusion hi
        refine ⟨i, hilt, ?_⟩
        rw [hPr, List.getElem?_append_left hilt]
        exact hi
      have hA' : ∀ x, acontains (aupsert st.2 v vLevel) x = true ↔
          x ∈ P ++ [v] := by
        intro x
        by_cases hx : x = v
        · subst hx
          unfold acontains
          rw [alookup_aupsert_self]
          simp
        · unfold acontains
          rw [alookup_aupsert_other st.2 v x vLevel hx]
          have hax := hA x
          unfold acontains at hax
          rw [hax, List.mem_append, List.mem_singleton]
          exact ⟨Or.inl, fun hc => hc.resolve_right hx⟩
      have hB' : ∀ x ℓ, alookup (aupsert st.2 v vLevel) x = some ℓ →
          x ∈ levels'.getD ℓ [] := by
        intro x ℓ hx
        by_cases hxv : x = v
        · subst hxv
          rw [alookup_aupsert_self] at hx
          have hℓ : vLevel = ℓ := Option.some.inj hx
          subst hℓ
          rw [hset, pad_set_getD, if_pos rfl]
          exact List.mem_append_right _ (List.mem_singleton.mpr rfl)
        · rw [alookup_aupsert_other st.2 v x vLevel hxv] at hx
          have hmem := hB x ℓ hx
          rw [hset, pad_set_getD]
          by_cases hℓ : ℓ = vLevel
          · rw [if_pos hℓ]
            rw [hℓ] at hmem
            exact List.mem_append_left _ hmem
          · rw [if_neg hℓ]
            exact hmem
      have hC' : ∀ i x, x ∈ levels'.getD i [] →
          alookup (aupsert st.2 v vLevel) x = some i := by
        intro i x hx
        rw [hset, pad_set_getD] at hx
        by_cases hi : i = vLevel
        · rw [if_pos hi] at hx
          rcases List.mem_append.mp hx with hx | hx
          · have hxl := hC vLevel x hx
            have hxv : x ≠ v := fun hh => hvP (hh ▸ hkey x vLevel hxl)
            rw [alookup_aupsert_other st.2 v x vLevel hxv, hxl, hi]
          · have hxv : x = v := List.mem_singleton.mp hx
            subst hxv
            rw [alookup_aupsert_self, hi]
        · rw [if_neg hi] at hx
          have hxl := hC i x hx
          have hxv : x ≠ v := fun hh => hvP (hh ▸ hkey x i hxl)
          rw [alookup_aupsert_other st.2 v x vLevel hxv, hxl]
      have hD' : ∀ a b, edgeIn graph.inner.edges a b → ∀ ℓa ℓb,
          alookup (aupsert st.2 v vLevel) a = some ℓa →
          alookup (aupsert st.2 v vLevel) b = some ℓb → ℓb < ℓa := by
        intro a b he ℓa ℓb ha hb
        by_cases hav : a = v
        · rw [hav] at ha he
          rw [alookup_aupsert_self] at ha
          have hℓa : vLevel = ℓa := Option.some.inj ha
          by_cases hbv : b = v
          · rw [hbv] at he
            exact absurd (hord v v he P.length P.length hvpos hvpos)
              (Nat.lt_irrefl _)
          · rw [alookup_aupsert_other st.2 v b vLevel hbv] at hb
            unfold edgeIn at he
            cases halk : alookup graph.inner.edges v with
            | none => rw [halk] at he; simp at he
            | some outs =>
              rw [halk] at he
              simp only [Option.getD_some] at he
              have hmm : ((alookup st.2 b).getD 0) ∈
                  outs.map (fun id => (alookup st.2 id).getD 0) :=
                List.mem_map_of_mem _ he
              rw [hb] at hmm
              simp only [Option.getD_some] at hmm
              obtain ⟨m, hm, hle⟩ := maxq_mem_le _ _ hmm
              have hinit : initialLevel graph st.2 v = m + 1 := by
                unfold initialLevel MinimalAcyclicDirectedGraph.outgoing
                rw [halk]
                simp only [hm, Option.map_some', Option.getD_some]
              rw [hinit] at hge
              omega
        · rw [alookup_aupsert_other st.2 v a vLevel hav] at ha
          by_cases hbv : b = v
          · exfalso
            obtain ⟨i, hilt, hipos⟩ := hPpos a (hkey a ℓa ha)
            subst hbv
            have := hord a b he i P.length hipos hvpos
            omega
          · rw [alookup_aupsert_other st.2 v b vLevel hbv] at hb
            exact hD a b he ℓa ℓb ha hb
      have hPr' : rev = (P ++ [v]) ++ rest' := by
        rw [hPr, List.append_assoc]
        rfl
      exact ih (P ++ [v]) (levels', aupsert st.2 v vLevel) st' hPr'
        hA' hB' hC' hD' h

/-- C6: transitive reduction removes exactly the edges admitting an
alternative path of length at least 2.  For a successful run of
`transitive_reduction` (src/acyclic.rs lines 23-124): an original edge
(u,v) survives iff no path u → w → … → v of length ≥ 2 exists in the
input; every surviving edge is an original edge; no surviving edge has
such a path within the result; and on scenario E ({(0,1),(0,2),(1,2)})
the reduced edge set is exactly {(0,1),(1,2)}. -/
theorem claim_C6_theorem (g : AcyclicDirectedGraph) (fuel : Nat)
    (red : MinimalAcyclicDirectedGraph)
    (h : g.transitiveReduction fuel = some red) :
    (∀ u v, edgeIn g.edges u v →
      (edgeIn red.inner.edges u v ↔
        ¬ ∃ w, edgeIn g.edges u w ∧ Reaches g.edges w v)) ∧
    (∀ u v, edgeIn red.inner.edges u v → edgeIn g.edges u v) ∧
    (∀ u v, edgeIn red.inner.edges u v →
      ¬ ∃ w, edgeIn red.inner.edges u w ∧ Reaches red.inner.edges w v) ∧
    (AcyclicDirectedGraph.transitiveReduction
        ⟨graphShortcut.nodes, graphShortcut.edges⟩ 100 =
      some ⟨⟨graphShortcut.nodes, [(0, [1]), (1, [2])]⟩⟩) := by
  obtain ⟨hnodes, hiff⟩ := transitiveReduction_edge_iff g fuel red h
  refine ⟨?_, ?_, ?_, by decide⟩
  · intro u v he
    rw [hiff u v]
    exact and_iff_right he
  · intro u v he
    exact ((hiff u v).mp he).1
  · intro u v he
    have hsub : ∀ a x, x ∈ succsE red.inner.edges a → x ∈ succsE g.edges a := by
      intro a x hx
      exact ((hiff a x).mp hx).1
    rintro ⟨w, hw, hwv⟩
    obtain ⟨h1, hnp⟩ := (hiff u v).mp he
    exact hnp ⟨w, ((hiff u w).mp hw).1, reaches_mono _ _ hsub w v hwv⟩

/-- C6 witness: the claim theorem applied to scenario E with fuel 100 —
the reduction succeeds, drops exactly (0,2), and the surviving edges
admit no length-≥2 alternative path in the result. -/
theorem claim_C6_witness :
    (AcyclicDirectedGraph.transitiveReduction
        ⟨graphShortcut.nodes, graphShortcut.edges⟩ 100 =
      some ⟨⟨graphShortcut.nodes, [(0, [1]), (1, [2])]⟩⟩) ∧
    (∀ u v, edgeIn [(0, [1]), (1, [2])] u v →
      ¬ ∃ w, edgeIn [(0, [1]), (1, [2])] u w ∧
        Reaches ([(0, [1]), (1, [2])] : List (ID × List ID)) w v) :=
  ⟨by decide,
   (claim_C6_theorem ⟨graphShortcut.nodes, graphShortcut.edges⟩ 100
      ⟨⟨graphShortcut.nodes, [(0, [1]), (1, [2])]⟩⟩ (by decide)).2.2.1⟩

/-- C5: for every edge (u,v) of the transitively reduced graph, given a
duplicate-free topologically compatible ordering (no edge points from a
later to an earlier node, no self-loops among ordered nodes) on which
`distribute_nodes` succeeds, the level containing v comes strictly after
the level containing u in the final top-to-bottom level list, each of the
two nodes appearing at exactly one level index. -/
theorem claim_C5_theorem (ordering : List ID)
    (graph : MinimalAcyclicDirectedGraph) (cfg : Config)
    (names : List (ID × String)) (out : List (List ID))
    (hnd : ordering.Nodup)
    (htopo : List.Pairwise (fun a b => ¬ edgeIn graph.inner.edges b a) ordering)
    (hirr : ∀ x ∈ ordering, ¬ edgeIn graph.inner.edges x x)
    (hdist : distributeNodes ordering graph cfg names = some out)
    (u v : ID) (he : edgeIn graph.inner.edges u v)
    (hu : u ∈ ordering) (hv : v ∈ ordering) :
    ∃ iu iv, iu < iv ∧ iv < out.length ∧
      u ∈ out.getD iu [] ∧ v ∈ out.getD iv [] ∧
      (∀ i, u ∈ out.getD i [] → i = iu) ∧
      (∀ i, v ∈ out.getD i [] → i = iv) := by
  unfold distributeNodes at hdist
  rw [Option.map_eq_some'] at hdist
  obtain ⟨st', hfold, hout⟩ := hdist
  have hord : ∀ a b, edgeIn graph.inner.edges a b → ∀ (i j : Nat),
      ordering.reverse[i]? = some a → ordering.reverse[j]? = some b →
      j < i := by
    intro a b he' i j hi hj
    have hilt : i < ordering.reverse.length := by
      by_contra hh
      rw [List.getElem?_eq_none (Nat.le_of_not_lt hh)] at hi
      exact Option.noConfusion hi
    have hjlt : j < ordering.reverse.length := by
      by_contra hh
      rw [List.getElem?_eq_none (Nat.le_of_not_lt hh)] at hj
      exact Option.noConfusion hj
    rw [List.length_reverse] at hilt hjlt
    have hi2 : ordering[ordering.length - 1 - i]? = some a :=
      (List.getElem?_reverse hilt).symm.trans hi
    have hj2 : ordering[ordering.length - 1 - j]? = some b :=
      (List.getElem?_reverse hjlt).symm.trans hj
    have hilt2 : ordering.length - 1 - i < ordering.length := by omega
    have hjlt2 : ordering.length - 1 - j < ordering.length := by omega
    have hgeti : ordering[ordering.length - 1 - i] = a := by
      rw [List.getElem?_eq_getElem hilt2] at hi2
      exact Option.some.inj hi2
    have hgetj : ordering[ordering.length - 1 - j] = b := by
      rw [List.getElem?_eq_getElem hjlt2] at hj2
      exact Option.some.inj hj2
    rcases Nat.lt_trichotomy (ordering.length - 1 - i)
        (ordering.length - 1 - j) with hlt | heq | hgt
    · omega
    · exfalso
      have hab : a = b := by
        have hsame : ordering[ordering.length - 1 - i]? = some b := by
          rw [heq]
          exact hj2
        exact Option.some.inj (hi2.symm.trans hsame)
      have hamem : a ∈ ordering := by
        rw [← hgeti]
        exact List.getElem_mem hilt2
      rw [← hab] at he'
      exact hirr a hamem he'
    · exfalso
      have hpw := List.pairwise_iff_getElem.mp htopo _ _ hjlt2 hilt2 hgt
      rw [hgeti, hgetj] at hpw
      exact hpw he'
  obtain ⟨hA, hB, hC, hD⟩ := distribute_fold_inv graph cfg names
    ordering.reverse (List.nodup_reverse.mpr hnd) hord ordering.reverse []
    (([] : List (List ID)), ([] : List (ID × Nat))) st' rfl
    (by
      intro x
      constructor
      · intro hx
        unfold acontains alookup at hx
        simp at hx
      · intro hx
        simp at hx)
    (by
      intro x ℓ hx
      unfold alookup at hx
      simp at hx)
    (by
      intro i x hx
      rw [List.getD_eq_getElem?_getD] at hx
      simp at hx)
    (by
      intro a b hab ℓa ℓb ha hb
      unfold alookup at ha
      simp at ha)
    hfold
  have hcu : acontains st'.2 u = true := (hA u).mpr (List.mem_reverse.mpr hu)
  have hcv : acontains st'.2 v = true := (hA v).mpr (List.mem_reverse.mpr hv)
  obtain ⟨ℓu, hℓu⟩ := acontains_some st'.2 u hcu
  obtain ⟨ℓv, hℓv⟩ := acontains_some st'.2 v hcv
  have hlt : ℓv < ℓu := hD u v he ℓu ℓv hℓu hℓv
  have hmu : u ∈ st'.1.getD ℓu [] := hB u ℓu hℓu
  have hmv : v ∈ st'.1.getD ℓv [] := hB v ℓv hℓv
  have hub : ℓu < st'.1.length := getD_mem_lt _ _ _ hmu
  have hvb : ℓv < st'.1.length := getD_mem_lt _ _ _ hmv
  have hlen : out.length = st'.1.length := by
    rw [← hout, List.length_reverse]
  have hgetD : ∀ i, i < st'.1.length →
      out.getD i [] = st'.1.getD (st'.1.length - 1 - i) [] := by
    intro i hi
    rw [← hout, List.getD_eq_getElem?_getD, List.getElem?_reverse hi,
      ← List.getD_eq_getElem?_getD]
  refine ⟨st'.1.length - 1 - ℓu, st'.1.length - 1 - ℓv, by omega,
    by omega, ?_, ?_, ?_, ?_⟩
  · rw [hgetD _ (by omega)]
    have harith : st'.1.length - 1 - (st'.1.length - 1 - ℓu) = ℓu := by omega
    rw [harith]
    exact hmu
  · rw [hgetD _ (by omega)]
    have harith : st'.1.length - 1 - (st'.1.length - 1 - ℓv) = ℓv := by omega
    rw [harith]
    exact hmv
  · intro i hi
    have hiL : i < st'.1.length := by
      have := getD_mem_lt out i u hi
      omega
    rw [hgetD i hiL] at hi
    have := hC _ u hi
    rw [hℓu] at this
    have heq : st'.1.length - 1 - i = ℓu := Option.some.inj this.symm
    omega
  · intro i hi
    have hiL : i < st'.1.length := by
      have := getD_mem_lt out i v hi
      omega
    rw [hgetD i hiL] at hi
    have := hC _ v hi
    rw [hℓv] at this
    have heq : st'.1.length - 1 - i = ℓv := Option.some.inj this.symm
    omega

/-- C5 witness: the chain 0 → 1 → 2 with ordering [0,1,2] places the
three nodes at the strictly increasing level indices 0, 1, 2. -/
theorem claim_C5_witness :
    ∃ iu iv, iu < iv ∧ iv < [[0], [1], [2]].length ∧
      (0 : ID) ∈ [[0], [1], [2]].getD iu [] ∧
      (1 : ID) ∈ [[0], [1], [2]].getD iv [] ∧
      (∀ i, (0 : ID) ∈ [[0], [1], [2]].getD i [] → i = iu) ∧
      (∀ i, (1 : ID) ∈ [[0], [1], [2]].getD i [] → i = iv) :=
  claim_C5_theorem [0, 1, 2]
    ⟨⟨[(0, "a"), (1, "b"), (2, "c")], [(0, [1]), (1, [2])]⟩⟩
    (Config.new 3) [(0, "(0)"), (1, "(1)"), (2, "(2)")]
    [[0], [1], [2]] (by decide) (by decide) (by decide) (by decide)
    0 1 (by decide) (by decide) (by decide)

end Termgraph
